import Mathlib

/-!
# Verification of the internship-digest pipeline (`agent.py`)

This file gives a shallow embedding, in Lean 4, of the core pipeline of the
repository (`src/agent.py`): the LangGraph state record, the fetch stage
(`tool_fetch`), the normalize/dedupe/filter stage
(`tool_normalize_dedupe_filter`), the LLM ranking stage (`agent_rank`), the
alert selection stage (`pick_alert`), and the job fingerprint
(`stable_job_id`, MD5 of a joined key string).

Modelling conventions:

* Python dicts representing job listings become the `Job` structure.  The
  seven fields produced by source adapters are plain strings / string lists
  (absent keys are modelled as `""` / `[]`, matching the `j.get(k, "")`
  accesses in the source); the fields written later in the pipeline
  (`id`, `score`, `reason`) are `Option`-valued, `none` meaning "key absent".
* Python mutates the listing dicts in place (`j["id"] = jid`,
  `j["score"] = ...`) while the same dict objects are shared by the
  `raw_jobs` / `jobs` / `ranked` / `alert` lists.  To capture this aliasing
  the embedding threads an explicit store (`State.store : List Job`); the
  per-stage lists hold indices into the store, and an in-place field
  assignment becomes `List.set` on the store.
* Machine-level MD5 is implemented over `Nat` with explicit `% 2 ^ 32`
  arithmetic, processing the UTF-8 bytes of the key string exactly as
  `hashlib.md5(key.encode("utf-8")).hexdigest()` does.
* String helpers (`lower`, `strip`, `x in text`, `" ".join`, `int(...)`)
  are re-implemented over `List Char` so that they compute by kernel
  reduction; `lower`/`strip`/`int` follow Python's behaviour on ASCII data
  (the repository's keyword lists and configuration are ASCII).
* The LLM response is modelled at the boundary the source uses it:
  `json.loads` either fails (`none`) or yields a JSON value (`some js`),
  embedded by the `Json` inductive.  Exceptions raised while consuming the
  parsed value (`TypeError` on iterating a non-sequence, unhashable ids,
  `AttributeError` from `.strip()` on a non-string) are modelled by
  `Option` results, and the `try/except` of `agent_rank` by the
  corresponding case split, including the partial mutations a mid-loop
  exception leaves behind.
-/

namespace Agent

/-! ## Python-flavoured string helpers (ASCII semantics, kernel-computable) -/

/-- Python `str.lower()` restricted to ASCII case mapping. -/
def pyLower (s : String) : String := ⟨s.data.map Char.toLower⟩

/-- Characters Python's default `str.strip()` removes (ASCII whitespace). -/
def pyWsp (c : Char) : Bool :=
  c = ' ' || c = '\t' || c = '\n' || c = '\r' || c = '\x0b' || c = '\x0c'

/-- Python `str.strip()` (ASCII whitespace on both ends). -/
def pyStrip (s : String) : String :=
  ⟨((s.data.dropWhile pyWsp).reverse.dropWhile pyWsp).reverse⟩

/-- `needle` begins `hay` (character-list prefix test). -/
def isPrefOf : List Char → List Char → Bool
  | [], _ => true
  | _ :: _, [] => false
  | a :: as, b :: bs => a == b && isPrefOf as bs

/-- `needle` occurs contiguously in `hay` (character-list infix test). -/
def isSubOf (needle hay : List Char) : Bool :=
  match hay with
  | [] => needle.isEmpty
  | _ :: hs => isPrefOf needle hay || isSubOf needle hs

/-- Python's substring test `needle in hay`. -/
def strIn (needle hay : String) : Bool := isSubOf needle.data hay.data

/-- Python `sep.join(xs)`. -/
def pyJoin (sep : String) (xs : List String) : String :=
  match xs with
  | [] => ""
  | x :: rest => rest.foldl (fun acc y => acc ++ sep ++ y) x

/-- Digits of a decimal numeral, or `none` if some character is not a digit
(or the list is empty). -/
def digitsToNat : List Char → Option Nat
  | [] => none
  | cs => cs.foldl
      (fun acc c =>
        match acc with
        | none => none
        | some n => if c.isDigit then some (n * 10 + (c.toNat - 48)) else none)
      (some 0)

/-- Python `int(s)` on a string: strip whitespace, optional sign, decimal
digits (ASCII, no underscore separators); `none` models `ValueError`. -/
def pyParseInt (s : String) : Option Int :=
  match (pyStrip s).data with
  | '-' :: rest => (digitsToNat rest).map (fun n => -(n : Int))
  | '+' :: rest => (digitsToNat rest).map (fun n => (n : Int))
  | cs => (digitsToNat cs).map (fun n => (n : Int))

/-- Python list slicing `l[:n]` with an `int` bound: a negative bound counts
from the end (`stop = len(l) + n`, clamped at `0`). -/
def pySlice (n : Int) (l : List α) : List α :=
  if 0 ≤ n then l.take n.toNat else l.take (l.length - (-n).toNat)

/-! ## MD5 over `Nat` (mod `2 ^ 32`), as used by `hashlib.md5(...).hexdigest()` -/

/-- Truncate to a 32-bit word. -/
def m32 (x : Nat) : Nat := x % 4294967296

/-- 32-bit addition. -/
def add32 (a b : Nat) : Nat := m32 (a + b)

/-- 32-bit bitwise complement. -/
def not32 (x : Nat) : Nat := Nat.xor x 4294967295

/-- 32-bit left rotation. -/
def rotl32 (x s : Nat) : Nat := m32 ((x <<< s) + (x >>> (32 - s)))

/-- The 64 MD5 round constants `K[i] = floor(2^32 * abs(sin(i+1)))`. -/
def md5K : List Nat :=
  [0xd76aa478, 0xe8c7b756, 0x242070db, 0xc1bdceee,
   0xf57c0faf, 0x4787c62a, 0xa8304613, 0xfd469501,
   0x698098d8, 0x8b44f7af, 0xffff5bb1, 0x895cd7be,
   0x6b901122, 0xfd987193, 0xa679438e, 0x49b40821,
   0xf61e2562, 0xc040b340, 0x265e5a51, 0xe9b6c7aa,
   0xd62f105d, 0x02441453, 0xd8a1e681, 0xe7d3fbc8,
   0x21e1cde6, 0xc33707d6, 0xf4d50d87, 0x455a14ed,
   0xa9e3e905, 0xfcefa3f8, 0x676f02d9, 0x8d2a4c8a,
   0xfffa3942, 0x8771f681, 0x6d9d6122, 0xfde5380c,
   0xa4beea44, 0x4bdecfa9, 0xf6bb4b60, 0xbebfbc70,
   0x289b7ec6, 0xeaa127fa, 0xd4ef3085, 0x04881d05,
   0xd9d4d039, 0xe6db99e5, 0x1fa27cf8, 0xc4ac5665,
   0xf4292244, 0x432aff97, 0xab9423a7, 0xfc93a039,
   0x655b59c3, 0x8f0ccc92, 0xffeff47d, 0x85845dd1,
   0x6fa87e4f, 0xfe2ce6e0, 0xa3014314, 0x4e0811a1,
   0xf7537e82, 0xbd3af235, 0x2ad7d2bb, 0xeb86d391]

/-- The 64 MD5 per-round left-rotation amounts. -/
def md5S : List Nat :=
  [7, 12, 17, 22, 7, 12, 17, 22, 7, 12, 17, 22, 7, 12, 17, 22,
   5, 9, 14, 20, 5, 9, 14, 20, 5, 9, 14, 20, 5, 9, 14, 20,
   4, 11, 16, 23, 4, 11, 16, 23, 4, 11, 16, 23, 4, 11, 16, 23,
   6, 10, 15, 21, 6, 10, 15, 21, 6, 10, 15, 21, 6, 10, 15, 21]

/-- One MD5 round: mixing function value and message-word index for round `i`. -/
def md5FG (i b c d : Nat) : Nat × Nat :=
  if i < 16 then
    (Nat.lor (Nat.land b c) (Nat.land (not32 b) d), i % 16)
  else if i < 32 then
    (Nat.lor (Nat.land d b) (Nat.land (not32 d) c), (5 * i + 1) % 16)
  else if i < 48 then
    (Nat.xor (Nat.xor b c) d, (3 * i + 5) % 16)
  else
    (Nat.xor c (Nat.lor b (not32 d)), (7 * i) % 16)

/-- Run the 64 MD5 rounds of one 512-bit block over state `(a, b, c, d)`;
`ws` are the 16 little-endian message words of the block. -/
def md5Rounds (ws : List Nat) (st : Nat × Nat × Nat × Nat) : Nat × Nat × Nat × Nat :=
  (List.range 64).foldl
    (fun st i =>
      let (a, b, c, d) := st
      let (f, g) := md5FG i b c d
      let f' := add32 (add32 (add32 f a) (md5K.getD i 0)) (ws.getD g 0)
      (d, add32 b (rotl32 f' (md5S.getD i 0)), b, c))
    st

/-- Little-endian byte expansion (`k` bytes) of a natural number. -/
def natLEBytes : Nat → Nat → List Nat
  | 0, _ => []
  | k + 1, x => x % 256 :: natLEBytes k (x / 256)

/-- Group the 64 bytes of a block into 16 little-endian 32-bit words. -/
def bytesToWords : List Nat → List Nat
  | b0 :: b1 :: b2 :: b3 :: rest =>
      (b0 + 256 * b1 + 65536 * b2 + 16777216 * b3) :: bytesToWords rest
  | _ => []

/-- Process the padded byte sequence block by block (fuel-driven recursion so
that the kernel can evaluate it; the fuel is always sufficient because each
step consumes 64 bytes). -/
def md5Blocks : Nat → List Nat → Nat × Nat × Nat × Nat → Nat × Nat × Nat × Nat
  | 0, _, st => st
  | _, [], st => st
  | fuel + 1, bs, st =>
      let (a, b, c, d) := st
      let (a', b', c', d') := md5Rounds (bytesToWords (bs.take 64)) st
      md5Blocks fuel (bs.drop 64) (add32 a a', add32 b b', add32 c c', add32 d d')

/-- MD5 padding: `0x80`, zeros to 56 mod 64, then the 64-bit little-endian
bit length. -/
def md5Pad (msg : List Nat) : List Nat :=
  msg ++ [0x80] ++ List.replicate ((119 - msg.length % 64) % 64) 0
      ++ natLEBytes 8 (8 * msg.length)

/-- MD5 digest (16 bytes) of a byte sequence. -/
def md5Bytes (msg : List Nat) : List Nat :=
  let padded := md5Pad msg
  let (a, b, c, d) :=
    md5Blocks (padded.length) padded (0x67452301, 0xefcdab89, 0x98badcfe, 0x10325476)
  natLEBytes 4 a ++ natLEBytes 4 b ++ natLEBytes 4 c ++ natLEBytes 4 d

/-- Lowercase hexadecimal digit. -/
def hexDigit (n : Nat) : Char :=
  if n < 10 then Char.ofNat (48 + n) else Char.ofNat (87 + n)

/-- UTF-8 encoding of one character, as byte values. -/
def utf8Char (c : Char) : List Nat :=
  let n := c.toNat
  if n < 0x80 then [n]
  else if n < 0x800 then
    [0xc0 + (n >>> 6), 0x80 + (n % 64)]
  else if n < 0x10000 then
    [0xe0 + (n >>> 12), 0x80 + ((n >>> 6) % 64), 0x80 + (n % 64)]
  else
    [0xf0 + (n >>> 18), 0x80 + ((n >>> 12) % 64), 0x80 + ((n >>> 6) % 64),
     0x80 + (n % 64)]

/-- UTF-8 encoding of a string, as byte values (`s.encode("utf-8")`). -/
def utf8Bytes (s : String) : List Nat := s.data.foldr (fun c acc => utf8Char c ++ acc) []

/-- `hashlib.md5(s.encode("utf-8")).hexdigest()`. -/
def md5hex (s : String) : String :=
  ⟨(md5Bytes (utf8Bytes s)).foldr
      (fun b acc => hexDigit (b / 16) :: hexDigit (b % 16) :: acc) []⟩

/-! ## Data model -/

/-- One job listing, the dict shape produced by the source adapters
(`sources.py`, `indeed_india_jobs`, `internshala_jobs`): seven adapter
fields, plus the fields written later in the pipeline (`id` during
normalisation, `score`/`reason` during scoring), which are `none` while the
corresponding dict key is absent. -/
structure Job where
  source : String := ""
  title : String := ""
  company : String := ""
  location : String := ""
  url : String := ""
  tags : List String := []
  date : String := ""
  id : Option String := none
  score : Option Int := none
  reason : Option String := none
deriving DecidableEq, Repr

instance : Inhabited Job := ⟨{}⟩

/-- The configuration produced by `load_config()`; missing keys are
backfilled from the defaults, so all six keys are always present. -/
structure Config where
  keywords_include : List String
  keywords_exclude : List String
  locations_prefer : List String
  min_score_to_alert : Int
  max_alerts : Int
  max_jobs_to_score : Int
deriving DecidableEq, Repr

/-- The built-in defaults of `load_config()`. -/
def defaultConfig : Config where
  keywords_include :=
    ["intern", "internship", "trainee",
     "data science", "machine learning", "nlp", "llm", "rag",
     "python", "analytics"]
  keywords_exclude :=
    ["senior", "lead", "principal", "manager", "staff",
     "5+ years", "7+ years", "10+ years"]
  locations_prefer := ["India", "Remote"]
  min_score_to_alert := 6
  max_alerts := 6
  max_jobs_to_score := 30

/-- The LangGraph `State` record.  The Python listing dicts live in `store`;
`raw_jobs`, `jobs`, `ranked` and `alert` hold references (store indices), so
that the aliasing of one dict from several lists — and its in-place
mutation — is represented faithfully. -/
structure State where
  store : List Job := []
  raw_jobs : List Nat := []
  jobs : List Nat := []
  ranked : List Nat := []
  alert : List Nat := []
  report_md : String := ""
deriving DecidableEq, Repr

/-- The listing a reference denotes (out-of-range references denote the
all-absent dict, which no reachable state contains). -/
def deref (store : List Job) (r : Nat) : Job := store.getD r default

/-- The listings the `raw_jobs` field holds. -/
def State.rawList (st : State) : List Job := st.raw_jobs.map (deref st.store)

/-- The listings the `jobs` field holds. -/
def State.jobsList (st : State) : List Job := st.jobs.map (deref st.store)

/-- The listings the `ranked` field holds. -/
def State.rankedList (st : State) : List Job := st.ranked.map (deref st.store)

/-- The listings the `alert` field holds. -/
def State.alertList (st : State) : List Job := st.alert.map (deref st.store)

/-! ## `stable_job_id` -/

/-- The fingerprint key `f"{source}|{company}|{title}|{url}"`. -/
def jobKey (j : Job) : String :=
  j.source ++ "|" ++ j.company ++ "|" ++ j.title ++ "|" ++ j.url

/-- `stable_job_id` (agent.py line 82): MD5 hexdigest of the joined key. -/
def stable_job_id (j : Job) : String := md5hex (jobKey j)

/-! ## `tool_fetch` -/

/-- The `for fn in (...): try: jobs.extend(fn()) except: pass` loop of
`tool_fetch`: each adapter call either returns its listings (`some l`) or
raises (`none`), and a raising adapter contributes nothing. -/
def fetchLoop (results : List (Option (List Job))) : List Job :=
  results.foldl
    (fun jobs r =>
      match r with
      | some l => jobs ++ l
      | none => jobs)
    []

/-- `tool_fetch` (agent.py line 210): runs the adapters and replaces
`raw_jobs` with the fetched listings.  The fetched dicts are fresh objects,
so they occupy fresh store slots. -/
def tool_fetch (results : List (Option (List Job))) (st : State) : State :=
  let fetched := fetchLoop results
  { st with
    store := st.store ++ fetched
    raw_jobs := (List.range fetched.length).map (fun i => st.store.length + i) }

/-! ## `tool_normalize_dedupe_filter` -/

/-- The fixed `domain_terms` list of `tool_normalize_dedupe_filter`. -/
def domain_terms : List String :=
  ["data science", "data scientist", "data analyst",
   "machine learning", "ml", "ai", "artificial intelligence",
   "nlp", "llm", "deep learning",
   "python", "sql", "analytics"]

/-- The fixed `intern_terms` list of `tool_normalize_dedupe_filter`. -/
def intern_terms : List String := ["intern", "internship", "trainee"]

/-- The lowercased search text: `" ".join([title, company, location, tags]).lower()`
with `title`/`location` stripped and `tags` space-joined, as built in the
filter loop (agent.py lines 240–252). -/
def searchText (j : Job) : String :=
  pyLower (pyJoin " " [pyStrip j.title, j.company, pyStrip j.location, pyJoin " " j.tags])

/-- The four `continue` guards of the filter loop, in source order: non-empty
stripped title; no exclusion keyword in the search text; an internship term
in the search text; if the stripped location is non-empty it must contain a
preferred location; a domain term in the search text. -/
def keepJob (exc loc_pref : List String) (j : Job) : Bool :=
  let title := pyStrip j.title
  if title = "" then false
  else
    let location := pyStrip j.location
    let text := searchText j
    if exc.any (fun x => strIn x text) then false
    else if !(intern_terms.any (fun t => strIn t text)) then false
    else if location ≠ "" && !(loc_pref.any (fun p => strIn p (pyLower location))) then false
    else if !(domain_terms.any (fun d => strIn d text)) then false
    else true

/-- The in-place assignment `j["id"] = jid`. -/
def setId (j : Job) (s : String) : Job := { j with id := some s }

/-- The in-place assignment `j["score"] = n`. -/
def setScore (j : Job) (n : Int) : Job := { j with score := some n }

/-- The in-place assignment `j["reason"] = s`. -/
def setReason (j : Job) (s : String) : Job := { j with reason := some s }

/-- The main loop of `tool_normalize_dedupe_filter` over the `raw_jobs`
references: rejected listings are skipped; a kept listing gets `j["id"] = jid`
written into its dict (an in-place store update) unless its fingerprint was
already seen. -/
def ndfLoop (exc loc_pref : List String) :
    List Job → List Nat → List String → List Nat → List Job × List String × List Nat
  | store, [], seen, out => (store, seen, out)
  | store, r :: rs, seen, out =>
      let j := deref store r
      if keepJob exc loc_pref j then
        let jid := stable_job_id j
        if seen.contains jid then ndfLoop exc loc_pref store rs seen out
        else
          ndfLoop exc loc_pref (store.set r (setId j jid)) rs (jid :: seen) (out ++ [r])
      else ndfLoop exc loc_pref store rs seen out

/-- `tool_normalize_dedupe_filter` (agent.py line 220): validates, filters and
dedupes `raw_jobs`, writing ids in place, and replaces the `jobs` field. -/
def tool_normalize_dedupe_filter (cfg : Config) (st : State) : State :=
  let exc := cfg.keywords_exclude.map pyLower
  let loc_pref := cfg.locations_prefer.map pyLower
  let res := ndfLoop exc loc_pref st.store st.raw_jobs [] []
  { st with store := res.1, jobs := res.2.2 }

/-! ## `agent_rank`

The oracle response string is consumed only through `json.loads`, so it is
modelled at that boundary: `none` when `json.loads` raises (the response is
not valid JSON), `some js` when it parses to the JSON value `js`. -/

/-- A parsed JSON value (`json.loads` output).  Numbers are modelled as
integers; the repository's scoring contract asks the oracle for integer
scores. -/
inductive Json where
  | null : Json
  | bool : Bool → Json
  | num : Int → Json
  | str : String → Json
  | arr : List Json → Json
  | obj : List (String × Json) → Json

/-- Last-binding lookup in a JSON object's field list (as `json.loads`
builds the dict, a repeated key keeps the last value). -/
def objFieldsGet (fields : List (String × Json)) (k : String) : Option Json :=
  fields.foldl (fun acc f => if f.1 = k then some f.2 else acc) none

/-- Python `x.get(k)` on a parsed JSON object. -/
def objGet : Json → String → Option Json
  | .obj fields, k => objFieldsGet fields k
  | _, _ => none

/-- Whether a parsed JSON value may be a dict key (`list`/`dict` values are
unhashable and raise `TypeError`). -/
def jsonHashable : Json → Bool
  | .arr _ => false
  | .obj _ => false
  | _ => true

/-- The entries `{x["id"]: x for x in parsed if isinstance(x, dict) and "id" in x}`
collects from the elements of a parsed JSON array, kept in insertion order
(`none` models the `TypeError` raised by an unhashable id value). -/
def scoreMapLoop : List Json → List (Json × Json) → Option (List (Json × Json))
  | [], acc => some acc
  | x :: rest, acc =>
      match x with
      | .obj fields =>
          if fields.any (fun f => f.1 = "id") then
            match objFieldsGet fields "id" with
            | some k =>
                if jsonHashable k then scoreMapLoop rest (acc ++ [(k, x)]) else none
            | none => scoreMapLoop rest acc
          else scoreMapLoop rest acc
      | _ => scoreMapLoop rest acc

/-- Building `score_map` from the parsed response: iterating a JSON array
visits its elements; iterating a string visits its characters and iterating
an object visits its keys (none of which are dicts, so those give an empty
map); a number, boolean or `None` is not iterable and raises `TypeError`
(`none`). -/
def buildScoreMap : Json → Option (List (Json × Json))
  | .arr xs => scoreMapLoop xs []
  | .str _ => some []
  | .obj _ => some []
  | _ => none

/-- Whether a stored key equals the looked-up id string (Python `==`: a
non-string key never equals a string id). -/
def jsonKeyIs (k : Json) (id : String) : Bool :=
  match k with
  | .str s => s = id
  | _ => false

/-- `score_map.get(j["id"], {})`: the value of the last map entry whose key
equals the id, defaulting to the empty dict. -/
def lookupScore (smap : List (Json × Json)) (id : String) : Json :=
  (smap.foldl (fun acc e => if jsonKeyIs e.1 id then some e.2 else acc) none).getD (.obj [])

/-- Python `int(...)` on a parsed JSON value; `none` models the raised
`TypeError`/`ValueError` the source catches (which defaults the score to 0). -/
def pyIntOf : Json → Option Int
  | .num n => some n
  | .bool b => some (if b then 1 else 0)
  | .str s => pyParseInt s
  | _ => none

/-- `max(0, min(10, sc_int))` with `sc_int = int(s.get("score", 0))`
defaulting to `0` when absent or non-numeric (agent.py lines 318–323). -/
def clampScore (s : Json) : Int :=
  let sc := (objGet s "score").getD (.num 0)
  let sc_int := (pyIntOf sc).getD 0
  max 0 (min 10 sc_int)

/-- Python truthiness of a parsed JSON value. -/
def pyTruthy : Json → Bool
  | .null => false
  | .bool b => b
  | .num n => n ≠ 0
  | .str s => s ≠ ""
  | .arr l => !l.isEmpty
  | .obj l => !l.isEmpty

/-- `(s.get("reason", "") or "").strip()` (agent.py line 324): a falsy value
becomes `""`; a truthy string is stripped; a truthy non-string raises
`AttributeError` (`none`), which aborts the scoring loop into the fallback. -/
def reasonStrip (s : Json) : Option String :=
  let v := (objGet s "reason").getD (.str "")
  if pyTruthy v then
    match v with
    | .str t => some (pyStrip t)
    | _ => none
  else some ""

/-- The `try` loop of `agent_rank` (lines 316–325) over the candidate
references: each candidate's dict gets `score` written, then `reason`; if
computing the reason raises, the loop stops with the mutations made so far
and the candidates appended so far (`false` flags the exception). -/
def rankTryLoop (smap : List (Json × Json)) :
    List Job → List Nat → List Nat → List Job × List Nat × Bool
  | store, [], acc => (store, acc, true)
  | store, r :: rs, acc =>
      let j := deref store r
      let s := lookupScore smap (j.id.getD "")
      let store1 := store.set r (setScore j (clampScore s))
      match reasonStrip s with
      | none => (store1, acc, false)
      | some rsn =>
          rankTryLoop smap (store1.set r (setReason (deref store1 r) rsn)) rs (acc ++ [r])

/-- The deterministic heuristic score of the `except` branch (lines 329–336):
base 6, +1 for an internship term in the lowercased title, +1 for a domain
term, capped at 10. -/
def heurScore (title : String) : Int :=
  let t := pyLower title
  let s1 : Int := 6
  let s2 := if strIn "intern" t || strIn "internship" t then s1 + 1 else s1
  let s3 := if strIn "machine learning" t || strIn "data science" t then s2 + 1 else s2
  min 10 s3

/-- The fixed fallback reason string of the `except` branch. -/
def fallbackReason : String := "Fallback ranking (LLM JSON parse failed)."

/-- The in-place update the `except` branch performs on one candidate dict. -/
def heurUpdate (j : Job) : Job :=
  { j with score := some (heurScore j.title), reason := some fallbackReason }

/-- The `except` loop of `agent_rank` (lines 327–338): every candidate dict
gets the heuristic score and the fallback reason written, and is appended to
the `ranked` list (which keeps whatever the `try` loop already appended). -/
def heuristicLoop : List Job → List Nat → List Nat → List Job × List Nat
  | store, [], acc => (store, acc)
  | store, r :: rs, acc =>
      heuristicLoop (store.set r (heurUpdate (deref store r))) rs (acc ++ [r])

/-- Stable insertion (descending by key): the new element, which stands
earlier in the unsorted list, goes before every element of equal key. -/
def insertDesc (key : α → Int) (x : α) : List α → List α
  | [] => [x]
  | y :: ys => if key y ≤ key x then x :: y :: ys else y :: insertDesc key x ys

/-- `list.sort(key=..., reverse=True)`: a stable sort, descending by key
(Python's sort is stable, and `reverse=True` does not reorder equal keys;
any stable descending sort computes the same list). -/
def sortDesc (key : α → Int) : List α → List α
  | [] => []
  | x :: xs => insertDesc key x (sortDesc key xs)

/-- The sort key `lambda x: x.get("score", 0)`, read through the store. -/
def scoreKey (store : List Job) (r : Nat) : Int := ((deref store r).score).getD 0

/-- `agent_rank` (agent.py line 282).  `resp` is the oracle response through
`json.loads` (`none`: the response is not valid JSON).  Result `none` models
the uncaught `KeyError` raised while building the prompt when a candidate
dict lacks `"id"` (never the case for pipeline-produced candidates).  The
candidates are `state["jobs"][:max_jobs_to_score]`; an empty candidate list
returns early with `ranked = []`. -/
def agent_rank (cfg : Config) (resp : Option Json) (st : State) : Option State :=
  let items := pySlice cfg.max_jobs_to_score st.jobs
  if items.isEmpty then some { st with ranked := [] }
  else if !(items.all fun r => ((deref st.store r).id).isSome) then none
  else
    match resp with
    | none =>
        let res := heuristicLoop st.store items []
        some { st with store := res.1, ranked := sortDesc (scoreKey res.1) res.2 }
    | some js =>
        match buildScoreMap js with
        | none =>
            let res := heuristicLoop st.store items []
            some { st with store := res.1, ranked := sortDesc (scoreKey res.1) res.2 }
        | some smap =>
            let res := rankTryLoop smap st.store items []
            if res.2.2 then
              some { st with store := res.1, ranked := sortDesc (scoreKey res.1) res.2.1 }
            else
              let res2 := heuristicLoop res.1 items res.2.1
              some { st with store := res2.1, ranked := sortDesc (scoreKey res2.1) res2.2 }

/-! ## `pick_alert` -/

/-- `pick_alert` (agent.py line 344): the ranked entries whose score meets
the threshold, sliced to `max_alerts`. -/
def pick_alert (cfg : Config) (st : State) : State :=
  let alert :=
    pySlice cfg.max_alerts
      (st.ranked.filter fun r => cfg.min_score_to_alert ≤ ((deref st.store r).score).getD 0)
  { st with alert := alert }

/-! ## Concrete instances used to exercise the pipeline -/

/-- A post-filter state with one candidate listing (id attached), the dict
shared by `raw_jobs` and `jobs`. -/
def exState1 : State :=
  { store := [{ title := "ml intern", id := some "a" }], raw_jobs := [0], jobs := [0] }

/-- A post-filter state with three candidate listings whose titles trigger
no heuristic bonus (so their heuristic scores tie at 6). -/
def exState3 : State :=
  { store :=
      [{ title := "x", url := "u1", id := some "a" },
       { title := "y", url := "u2", id := some "b" },
       { title := "z", url := "u3", id := some "c" }]
    raw_jobs := [0, 1, 2]
    jobs := [0, 1, 2] }

/-- An oracle response that parses as JSON and addresses the third candidate
with a truthy non-string reason: scoring it raises `AttributeError` midway
through the `try` loop. -/
def exRespMidAbort : Json :=
  .arr [.obj [("id", .str "c"), ("score", .num 9), ("reason", .num 5)]]

/-- Two raw listings whose `(source, company, title, url)` tuples differ but
whose joined fingerprint keys coincide (the `"|"` separator also occurs in
the field values). -/
def exJobPipeA : Job := { source := "a|b", company := "c", title := "t", url := "u" }

/-- See `exJobPipeA`. -/
def exJobPipeB : Job := { source := "a", company := "b|c", title := "t", url := "u" }

/-- A raw listing whose search text contains the exclusion keyword
`"senior"` of the default configuration. -/
def exJobSenior : Job :=
  { source := "S", title := "Senior Data Engineer", company := "Acme",
    location := "India", url := "u1" }

/-- A configuration with a negative `max_alerts` (the config file is free to
contain any integer). -/
def exCfgNeg : Config := { defaultConfig with max_alerts := -1 }

/-- The state `agent_rank` produces from `exState1` on a non-JSON response:
the one candidate scored by the heuristic (`"ml intern"` gets `6 + 1 = 7`)
with the fallback reason. -/
def exState1Ranked : State :=
  { store := [{ title := "ml intern", id := some "a", score := some 7,
                reason := some "Fallback ranking (LLM JSON parse failed)." }]
    raw_jobs := [0]
    jobs := [0]
    ranked := [0] }

/-! ## Derived notions used in statements -/

/-- A listing with the pipeline-written keys (`id`, `score`, `reason`)
cleared: what remains is exactly the adapter-produced content.  Two jobs
with the same `stripMeta` image are the same listing as far as the source
adapters are concerned. -/
def stripMeta (j : Job) : Job := { j with id := none, score := none, reason := none }

/-- The update the parsed path performs on a candidate absent from the score
map (or present with no usable fields): score defaulted to `0`, reason to
the empty string. -/
def zeroScoreUpdate (j : Job) : Job := { j with score := some 0, reason := some "" }

/-- The scoring run does not raise midway through the `try` loop: the
response is not valid JSON, or building the score map already failed, or
every candidate processes cleanly.  (The one excluded case is a parsed
response whose entry for some candidate carries a truthy non-string
`reason`, which raises `AttributeError` after part of the loop has run.) -/
def noMidAbort (cfg : Config) (resp : Option Json) (st : State) : Prop :=
  match resp with
  | none => True
  | some js =>
      match buildScoreMap js with
      | none => True
      | some smap =>
          (rankTryLoop smap st.store (pySlice cfg.max_jobs_to_score st.jobs) []).2.2 = true

/-- Invariant of the filter loop's accumulated output: every kept reference
passes the keep checks, carries its fingerprint as `id`, has that
fingerprint recorded in `seen`, and the kept fingerprints are pairwise
distinct. -/
def ndfInv (exc loc_pref : List String) (store : List Job) (seen : List String)
    (out : List Nat) : Prop :=
  (∀ r ∈ out,
      keepJob exc loc_pref (deref store r) = true ∧
      (deref store r).id = some (stable_job_id (deref store r)) ∧
      seen.contains (stable_job_id (deref store r)) = true) ∧
  (out.map fun r => stable_job_id (deref store r)).Nodup

/-! ## Store lemmas -/

theorem deref_set_self {store : List Job} {r : Nat} (a : Job) (h : r < store.length) :
    deref (store.set r a) r = a := by
  simp [deref, List.getD_eq_getElem?_getD, List.getElem?_set_self h]

theorem deref_set_ne {store : List Job} {r q : Nat} (a : Job) (h : r ≠ q) :
    deref (store.set r a) q = deref store q := by
  simp [deref, List.getD_eq_getElem?_getD, List.getElem?_set_ne h]

theorem set_deref_self (store : List Job) (r : Nat) :
    store.set r (deref store r) = store := by
  rcases Nat.lt_or_ge r store.length with h | h
  · apply List.ext_getElem?
    intro n
    rcases eq_or_ne r n with rfl | hne
    · simp [List.getElem?_set_self h, deref, List.getD_eq_getElem?_getD,
        List.getElem?_eq_getElem h]
    · simp [List.getElem?_set_ne hne]
  · exact List.set_eq_of_length_le h

theorem deref_of_length_le {store : List Job} {r : Nat} (h : store.length ≤ r) :
    deref store r = default := by
  simp [deref, List.getD_eq_getElem?_getD, List.getElem?_eq_none h]

/-- A reference whose dict carries an `id` key is in range: the out-of-range
dict is the all-absent one. -/
theorem lt_length_of_id_isSome {store : List Job} {r : Nat}
    (h : ((deref store r).id).isSome) : r < store.length := by
  by_contra hge
  rw [deref_of_length_le (Nat.le_of_not_lt hge)] at h
  simp [default] at h

/-! ## Stable descending sort lemmas -/

theorem insertDesc_perm (key : α → Int) (x : α) (l : List α) :
    (insertDesc key x l).Perm (x :: l) := by
  induction l with
  | nil => simp [insertDesc]
  | cons y ys ih =>
      by_cases h : key y ≤ key x
      · simp [insertDesc, h]
      · simp only [insertDesc, if_neg h]
        exact ((ih.cons y).trans (List.Perm.swap x y ys)).symm.symm

theorem sortDesc_perm (key : α → Int) (l : List α) : (sortDesc key l).Perm l := by
  induction l with
  | nil => simp [sortDesc]
  | cons x xs ih =>
      exact (insertDesc_perm key x (sortDesc key xs)).trans (ih.cons x)

theorem mem_sortDesc {key : α → Int} {l : List α} {a : α} :
    a ∈ sortDesc key l ↔ a ∈ l :=
  (sortDesc_perm key l).mem_iff

theorem insertDesc_sorted {key : α → Int} {l : List α}
    (h : l.Pairwise (fun a b => key b ≤ key a)) (x : α) :
    (insertDesc key x l).Pairwise (fun a b => key b ≤ key a) := by
  induction l with
  | nil => simp [insertDesc]
  | cons y ys ih =>
      rcases List.pairwise_cons.mp h with ⟨hy, hys⟩
      by_cases hle : key y ≤ key x
      · rw [insertDesc, if_pos hle]
        refine List.pairwise_cons.mpr ⟨?_, h⟩
        intro b hb
        rcases List.mem_cons.mp hb with rfl | hb
        · exact hle
        · exact le_trans (hy _ hb) hle
      · rw [insertDesc, if_neg hle]
        refine List.pairwise_cons.mpr ⟨?_, ih hys⟩
        intro b hb
        rw [(insertDesc_perm key x ys).mem_iff] at hb
        rcases List.mem_cons.mp hb with rfl | hb
        · exact le_of_lt (lt_of_not_le hle)
        · exact hy _ hb

theorem sortDesc_sorted (key : α → Int) (l : List α) :
    (sortDesc key l).Pairwise (fun a b => key b ≤ key a) := by
  induction l with
  | nil => simp [sortDesc]
  | cons x xs ih => exact insertDesc_sorted ih x

theorem filter_insertDesc_of_eq {key : α → Int} {x : α} {k : Int} (hx : key x = k)
    (l : List α) :
    (insertDesc key x l).filter (fun a => decide (key a = k)) =
      x :: l.filter (fun a => decide (key a = k)) := by
  induction l with
  | nil => simp [insertDesc, hx]
  | cons y ys ih =>
      by_cases hle : key y ≤ key x
      · rw [insertDesc, if_pos hle, List.filter_cons, List.filter_cons, if_pos (by simp [hx])]
      · have hy : ¬ key y = k := by
          intro hk
          exact hle (le_of_eq (hk.trans hx.symm))
        rw [insertDesc, if_neg hle, List.filter_cons, List.filter_cons,
          if_neg (by simp [hy]), if_neg (by simp [hy]), ih]

theorem filter_insertDesc_of_ne {key : α → Int} {x : α} {k : Int} (hx : key x ≠ k)
    (l : List α) :
    (insertDesc key x l).filter (fun a => decide (key a = k)) =
      l.filter (fun a => decide (key a = k)) := by
  induction l with
  | nil => simp [insertDesc, hx]
  | cons y ys ih =>
      by_cases hle : key y ≤ key x
      · simp [insertDesc, hle, List.filter_cons, hx]
      · simp [insertDesc, if_neg hle, List.filter_cons, ih]

/-- Stability: the equal-key entries of the sorted list stand in the order
the unsorted list had them. -/
theorem filter_sortDesc (key : α → Int) (l : List α) (k : Int) :
    (sortDesc key l).filter (fun a => decide (key a = k)) =
      l.filter (fun a => decide (key a = k)) := by
  induction l with
  | nil => simp [sortDesc]
  | cons x xs ih =>
      by_cases hx : key x = k
      · rw [sortDesc, filter_insertDesc_of_eq hx, ih, List.filter_cons, if_pos (by simp [hx])]
      · rw [sortDesc, filter_insertDesc_of_ne hx, ih, List.filter_cons, if_neg (by simp [hx])]

/-! ## Slice lemmas -/

theorem pySlice_of_nonneg {n : Int} (h : 0 ≤ n) (l : List α) :
    pySlice n l = l.take n.toNat := by
  simp [pySlice, h]

theorem pySlice_sublist (n : Int) (l : List α) : (pySlice n l).Sublist l := by
  unfold pySlice
  split
  · exact List.take_sublist _ _
  · exact List.take_sublist _ _

theorem length_pySlice_le {n : Int} (h : 0 ≤ n) (l : List α) :
    ((pySlice n l).length : Int) ≤ n := by
  rw [pySlice_of_nonneg h]
  calc ((l.take n.toNat).length : Int) ≤ (n.toNat : Int) := by
        exact_mod_cast le_trans (le_of_eq (List.length_take _ _)) (Nat.min_le_left _ _)
    _ = n := Int.toNat_of_nonneg h

/-! ## Fetch lemmas -/

theorem fetchFold_append (results : List (Option (List Job))) (acc : List Job) :
    results.foldl
        (fun jobs r =>
          match r with
          | some l => jobs ++ l
          | none => jobs)
        acc
      = acc ++ fetchLoop results := by
  induction results generalizing acc with
  | nil => simp [fetchLoop]
  | cons a rest ih =>
      rw [List.foldl_cons]
      rw [show fetchLoop (a :: rest)
            = (match a with | some l => ([] : List Job) ++ l | none => []) ++ fetchLoop rest by
          rw [fetchLoop, List.foldl_cons, ih]]
      rw [ih]
      cases a <;> simp

/-- `fetchLoop` concatenates, in invocation order, the listings of exactly
the successful adapters; a failing adapter contributes the empty list. -/
theorem fetchLoop_eq_join (results : List (Option (List Job))) :
    fetchLoop results = (results.map (fun a => a.getD [])).flatten := by
  induction results with
  | nil => simp [fetchLoop]
  | cons a rest ih =>
      rw [fetchLoop, List.foldl_cons, fetchFold_append, ih]
      cases a <;> simp

theorem range_map_deref_append (B A : List Job) :
    (List.range B.length).map (fun i => deref (A ++ B) (A.length + i)) = B := by
  induction B generalizing A with
  | nil => simp
  | cons b bs ih =>
      rw [List.length_cons, List.range_succ_eq_map, List.map_cons, List.map_map]
      have hb : deref (A ++ b :: bs) (A.length + 0) = b := by
        simp [deref, List.getD_eq_getElem?_getD,
          List.getElem?_append_right (Nat.le_refl A.length)]
      rw [hb]
      have hmap : ((List.range bs.length).map
            (fun i => deref (A ++ b :: bs) (A.length + Nat.succ i)))
          = (List.range bs.length).map (fun i => deref ((A ++ [b]) ++ bs) ((A ++ [b]).length + i)) := by
        apply List.map_congr_left
        intro i _
        have harr : A ++ b :: bs = (A ++ [b]) ++ bs := by simp
        have hidx : A.length + Nat.succ i = (A ++ [b]).length + i := by
          simp [List.length_append]
          omega
        rw [harr, hidx]
      rw [show ((fun i => deref (A ++ b :: bs) (A.length + i)) ∘ Nat.succ)
            = fun i => deref (A ++ b :: bs) (A.length + Nat.succ i) from rfl]
      rw [hmap, ih]

/-! ## Filter lemmas -/

/-- Writing the `id` key does not change the keep decision: the checks read
only the adapter-produced fields. -/
theorem keepJob_setId (exc lp : List String) (j : Job) (s : String) :
    keepJob exc lp (setId j s) = keepJob exc lp j := rfl

/-- Writing the `id` key does not change the fingerprint: the key reads only
`source`, `company`, `title`, `url`. -/
theorem stable_job_id_setId (j : Job) (s : String) :
    stable_job_id (setId j s) = stable_job_id j := rfl

theorem id_setId (j : Job) (s : String) : (setId j s).id = some s := rfl

/-- Re-writing the `id` a dict already carries is the identity. -/
theorem setId_self {j : Job} {s : String} (h : j.id = some s) : setId j s = j := by
  cases j
  simp only [Job.mk.injEq] at h ⊢
  simp_all [setId]

/-- The out-of-range (all-absent) dict never passes the keep checks: its
title is empty. -/
theorem keepJob_default (exc lp : List String) : keepJob exc lp default = false := rfl

theorem keep_lt_length {exc lp : List String} {store : List Job} {r : Nat}
    (h : keepJob exc lp (deref store r) = true) : r < store.length := by
  by_contra hge
  rw [deref_of_length_le (Nat.le_of_not_lt hge), keepJob_default] at h
  exact Bool.false_ne_true h

/-- The filter loop preserves its invariant. -/
theorem ndfLoop_inv (exc lp : List String) :
    ∀ (rs : List Nat) (store : List Job) (seen : List String) (out : List Nat),
      ndfInv exc lp store seen out →
      ndfInv exc lp (ndfLoop exc lp store rs seen out).1
        (ndfLoop exc lp store rs seen out).2.1 (ndfLoop exc lp store rs seen out).2.2 := by
  intro rs
  induction rs with
  | nil => intro store seen out hinv; exact hinv
  | cons r rs ih =>
      intro store seen out hinv
      by_cases hkeep : keepJob exc lp (deref store r) = true
      · by_cases hseen : seen.contains (stable_job_id (deref store r)) = true
        · rw [ndfLoop, if_pos hkeep, if_pos hseen]
          exact ih store seen out hinv
        · rw [ndfLoop, if_pos hkeep, if_neg hseen]
          apply ih
          obtain ⟨hmem, hnd⟩ := hinv
          have hlt : r < store.length := keep_lt_length hkeep
          have hne : ∀ q ∈ out, q ≠ r := by
            intro q hq hqr
            subst hqr
            exact hseen (hmem q hq).2.2
          have hderef : ∀ q ∈ out,
              deref (store.set r (setId (deref store r) (stable_job_id (deref store r)))) q
                = deref store q := by
            intro q hq
            exact deref_set_ne _ (fun hrq => hne q hq hrq.symm)
          have hr : deref (store.set r (setId (deref store r) (stable_job_id (deref store r)))) r
              = setId (deref store r) (stable_job_id (deref store r)) :=
            deref_set_self _ hlt
          constructor
          · intro q hq
            rcases List.mem_append.mp hq with hq | hq
            · obtain ⟨h1, h2, h3⟩ := hmem q hq
              rw [hderef q hq]
              exact ⟨h1, h2, by rw [List.contains_cons, h3]; simp⟩
            · rcases List.mem_singleton.mp hq with rfl
              rw [hr, keepJob_setId, stable_job_id_setId]
              refine ⟨hkeep, id_setId _ _, by rw [List.contains_cons]; simp⟩
          · rw [List.map_append]
            rw [List.nodup_append]
            refine ⟨?_, by simp, ?_⟩
            · rw [show (out.map fun q =>
                    stable_job_id (deref (store.set r
                      (setId (deref store r) (stable_job_id (deref store r)))) q))
                  = out.map fun q => stable_job_id (deref store q) from
                  List.map_congr_left fun q hq => by rw [hderef q hq]]
              exact hnd
            · intro x hx hx'
              simp only [List.mem_map] at hx
              obtain ⟨q, hq, hxq⟩ := hx
              simp only [List.map_cons, List.map_nil, List.mem_singleton] at hx'
              rw [hderef q hq] at hxq
              rw [hr, stable_job_id_setId] at hx'
              apply hseen
              rw [← hx', ← hxq]
              exact (hmem q hq).2.2
      · rw [ndfLoop, if_neg hkeep]
        exact ih store seen out hinv

/-- Running the filter loop over references that all pass the checks, carry
their fingerprint as `id`, and have pairwise distinct unseen fingerprints
keeps every one of them and leaves the store untouched. -/
theorem ndfLoop_keep_all (exc lp : List String) :
    ∀ (rs : List Nat) (store : List Job) (seen : List String) (out : List Nat),
      (∀ r ∈ rs,
          keepJob exc lp (deref store r) = true ∧
          (deref store r).id = some (stable_job_id (deref store r)) ∧
          seen.contains (stable_job_id (deref store r)) = false) →
      (rs.map fun r => stable_job_id (deref store r)).Nodup →
      (ndfLoop exc lp store rs seen out).1 = store ∧
      (ndfLoop exc lp store rs seen out).2.2 = out ++ rs := by
  intro rs
  induction rs with
  | nil => intro store seen out _ _; exact ⟨rfl, by simp [ndfLoop]⟩
  | cons r rs ih =>
      intro store seen out hmem hnd
      obtain ⟨hkeep, hid, hunseen⟩ := hmem r (List.mem_cons_self r rs)
      rw [ndfLoop, if_pos hkeep,
        if_neg (by rw [hunseen]; exact Bool.false_ne_true)]
      rw [setId_self hid, set_deref_self]
      rw [List.map_cons, List.nodup_cons] at hnd
      have hrest : ∀ q ∈ rs,
          keepJob exc lp (deref store q) = true ∧
          (deref store q).id = some (stable_job_id (deref store q)) ∧
          (stable_job_id (deref store r) :: seen).contains (stable_job_id (deref store q))
            = false := by
        intro q hq
        obtain ⟨h1, h2, h3⟩ := hmem q (List.mem_cons_of_mem r hq)
        refine ⟨h1, h2, ?_⟩
        rw [List.contains_cons, h3]
        have : ¬ stable_job_id (deref store q) = stable_job_id (deref store r) := by
          intro hEq
          exact hnd.1 (hEq ▸ List.mem_map_of_mem (fun x => stable_job_id (deref store x)) hq)
        simp [this]
      obtain ⟨h1, h2⟩ := ih store (stable_job_id (deref store r) :: seen) (out ++ [r]) hrest hnd.2
      exact ⟨h1, by rw [h2]; simp⟩

/-- What `tool_normalize_dedupe_filter` guarantees about its output: every
kept reference passes the keep checks and carries its fingerprint as `id`,
and the kept fingerprints are pairwise distinct. -/
theorem tool_ndf_spec (cfg : Config) (st : State) :
    (∀ r ∈ (tool_normalize_dedupe_filter cfg st).jobs,
        keepJob (cfg.keywords_exclude.map pyLower) (cfg.locations_prefer.map pyLower)
            (deref (tool_normalize_dedupe_filter cfg st).store r) = true ∧
        (deref (tool_normalize_dedupe_filter cfg st).store r).id
          = some (stable_job_id (deref (tool_normalize_dedupe_filter cfg st).store r))) ∧
    ((tool_normalize_dedupe_filter cfg st).jobs.map
        fun r => stable_job_id (deref (tool_normalize_dedupe_filter cfg st).store r)).Nodup := by
  have hinv0 : ndfInv (cfg.keywords_exclude.map pyLower) (cfg.locations_prefer.map pyLower)
      st.store [] [] := by
    unfold ndfInv
    exact ⟨fun r hr => absurd hr (List.not_mem_nil r), by simp⟩
  have h := ndfLoop_inv (cfg.keywords_exclude.map pyLower) (cfg.locations_prefer.map pyLower)
    st.raw_jobs st.store [] [] hinv0
  obtain ⟨hmem, hnd⟩ := h
  constructor
  · intro r hr
    have hr' : r ∈ (ndfLoop (cfg.keywords_exclude.map pyLower)
        (cfg.locations_prefer.map pyLower) st.store st.raw_jobs [] []).2.2 := hr
    obtain ⟨h1, h2, _⟩ := hmem r hr'
    exact ⟨h1, h2⟩
  · exact hnd

/-! ## Ranking lemmas -/

/-- The heuristic rewrite reads only the (unchanged) title, so repeating it
is the identity. -/
theorem heurUpdate_idem (j : Job) : heurUpdate (heurUpdate j) = heurUpdate j := rfl

theorem heurScore_bounds (t : String) : 0 ≤ heurScore t ∧ heurScore t ≤ 10 := by
  unfold heurScore
  simp only []
  split <;> split <;>
    exact ⟨le_min (by norm_num) (by norm_num), min_le_left _ _⟩

theorem clampScore_bounds (s : Json) : 0 ≤ clampScore s ∧ clampScore s ≤ 10 := by
  unfold clampScore
  exact ⟨le_max_left _ _, max_le (by norm_num) (min_le_left _ _)⟩

theorem heuristicLoop_acc (store : List Job) :
    ∀ (refs acc : List Nat), (heuristicLoop store refs acc).2 = acc ++ refs := by
  intro refs
  induction refs generalizing store with
  | nil => intro acc; simp [heuristicLoop]
  | cons r rs ih =>
      intro acc
      rw [heuristicLoop, ih]
      simp

theorem heuristicLoop_length (store : List Job) :
    ∀ (refs acc : List Nat), (heuristicLoop store refs acc).1.length = store.length := by
  intro refs
  induction refs generalizing store with
  | nil => intro acc; simp [heuristicLoop]
  | cons r rs ih =>
      intro acc
      rw [heuristicLoop, ih]
      simp

theorem heuristicLoop_deref_not_mem {store : List Job} {refs : List Nat} {q : Nat}
    (h : q ∉ refs) (acc : List Nat) :
    deref (heuristicLoop store refs acc).1 q = deref store q := by
  induction refs generalizing store acc with
  | nil => rfl
  | cons r rs ih =>
      rw [heuristicLoop, ih (fun hq => h (List.mem_cons_of_mem r hq))]
      exact deref_set_ne _ (fun hrq => h (hrq ▸ List.mem_cons_self r rs))

theorem heuristicLoop_deref_mem {store : List Job} {refs : List Nat}
    (hval : ∀ r ∈ refs, r < store.length) :
    ∀ q ∈ refs, ∀ acc, deref (heuristicLoop store refs acc).1 q = heurUpdate (deref store q) := by
  induction refs generalizing store with
  | nil => intro q hq; cases hq
  | cons r rs ih =>
      intro q hq acc
      rw [heuristicLoop]
      have hlt : r < store.length := hval r (List.mem_cons_self r rs)
      have hset : deref (store.set r (heurUpdate (deref store r))) r
          = heurUpdate (deref store r) := deref_set_self _ hlt
      have hval' : ∀ p ∈ rs, p < (store.set r (heurUpdate (deref store r))).length := by
        intro p hp
        rw [List.length_set]
        exact hval p (List.mem_cons_of_mem r hp)
      by_cases hqrs : q ∈ rs
      · rw [ih hval' q hqrs]
        rcases eq_or_ne r q with rfl | hne
        · rw [hset, heurUpdate_idem]
        · rw [deref_set_ne _ hne]
      · rcases List.mem_cons.mp hq with rfl | hq'
        · rw [heuristicLoop_deref_not_mem hqrs, hset]
        · exact absurd hq' hqrs

/-- Every reference the heuristic loop has appended carries a score in
`[0, 10]` (newly processed ones get the heuristic score; earlier ones are
either untouched or overwritten with a heuristic score). -/
theorem heuristicLoop_score_bounded {store : List Job} {refs acc : List Nat}
    (hval : ∀ r ∈ refs, r < store.length)
    (hacc : ∀ q ∈ acc, ∃ n, (deref store q).score = some n ∧ 0 ≤ n ∧ n ≤ 10) :
    ∀ q ∈ (heuristicLoop store refs acc).2,
      ∃ n, (deref (heuristicLoop store refs acc).1 q).score = some n ∧ 0 ≤ n ∧ n ≤ 10 := by
  intro q hq
  rw [heuristicLoop_acc] at hq
  by_cases hqr : q ∈ refs
  · rw [heuristicLoop_deref_mem hval q hqr]
    exact ⟨heurScore (deref store q).title, rfl, heurScore_bounds _⟩
  · rw [heuristicLoop_deref_not_mem hqr]
    rcases List.mem_append.mp hq with hq' | hq'
    · exact hacc q hq'
    · exact absurd hq' hqr

theorem rankTryLoop_length (smap : List (Json × Json)) :
    ∀ (refs : List Nat) (store : List Job) (acc : List Nat),
      (rankTryLoop smap store refs acc).1.length = store.length := by
  intro refs
  induction refs with
  | nil => intro store acc; rfl
  | cons r rs ih =>
      intro store acc
      rw [rankTryLoop]
      cases hstrip : reasonStrip (lookupScore smap ((deref store r).id.getD "")) with
      | none => simp [List.length_set]
      | some rsn => simp [ih, List.length_set]

/-- When the `try` loop completes without raising, it has appended every
candidate, in order. -/
theorem rankTryLoop_ok_acc (smap : List (Json × Json)) :
    ∀ (refs : List Nat) (store : List Job) (acc : List Nat),
      (rankTryLoop smap store refs acc).2.2 = true →
      (rankTryLoop smap store refs acc).2.1 = acc ++ refs := by
  intro refs
  induction refs with
  | nil => intro store acc _; simp [rankTryLoop]
  | cons r rs ih =>
      intro store acc hok
      rw [rankTryLoop] at hok ⊢
      cases hstrip : reasonStrip (lookupScore smap ((deref store r).id.getD "")) with
      | none => rw [hstrip] at hok; simp at hok
      | some rsn =>
          rw [hstrip] at hok
          simp only [] at hok ⊢
          rw [ih _ _ hok]
          simp

/-- Every reference the `try` loop has appended carries a score in `[0, 10]`:
each iteration writes a clamped score (and a write may also overwrite an
earlier appended reference, again with a clamped score). -/
theorem rankTryLoop_score_bounded (smap : List (Json × Json)) :
    ∀ (refs : List Nat) (store : List Job) (acc : List Nat),
      (∀ r ∈ refs, r < store.length) →
      (∀ q ∈ acc, ∃ n, (deref store q).score = some n ∧ 0 ≤ n ∧ n ≤ 10) →
      ∀ q ∈ (rankTryLoop smap store refs acc).2.1,
        ∃ n, (deref (rankTryLoop smap store refs acc).1 q).score = some n ∧ 0 ≤ n ∧ n ≤ 10 := by
  intro refs
  induction refs with
  | nil => intro store acc _ hacc q hq; exact hacc q hq
  | cons r rs ih =>
      intro store acc hval hacc
      have hlt : r < store.length := hval r (List.mem_cons_self r rs)
      have hbound1 : ∀ q ∈ acc ++ [r],
          ∃ n, (deref (store.set r (setScore (deref store r)
              (clampScore (lookupScore smap ((deref store r).id.getD ""))))) q).score
            = some n ∧ 0 ≤ n ∧ n ≤ 10 := by
        intro q hq
        rcases eq_or_ne r q with rfl | hne
        · rw [deref_set_self _ hlt]
          exact ⟨_, rfl, clampScore_bounds _⟩
        · rw [deref_set_ne _ hne]
          rcases List.mem_append.mp hq with hq' | hq'
          · exact hacc q hq'
          · exact absurd (List.mem_singleton.mp hq').symm hne
      rw [rankTryLoop]
      cases hstrip : reasonStrip (lookupScore smap ((deref store r).id.getD "")) with
      | none =>
          intro q hq
          exact hbound1 q (List.mem_append.mpr (Or.inl hq))
      | some rsn =>
          have hval' : ∀ p ∈ rs,
              p < ((store.set r (setScore (deref store r)
                  (clampScore (lookupScore smap ((deref store r).id.getD ""))))).set r
                  (setReason (deref (store.set r (setScore (deref store r)
                    (clampScore (lookupScore smap ((deref store r).id.getD ""))))) r) rsn)).length := by
            intro p hp
            rw [List.length_set, List.length_set]
            exact hval p (List.mem_cons_of_mem r hp)
          have hacc' : ∀ p ∈ acc ++ [r],
              ∃ n, (deref ((store.set r (setScore (deref store r)
                  (clampScore (lookupScore smap ((deref store r).id.getD ""))))).set r
                  (setReason (deref (store.set r (setScore (deref store r)
                    (clampScore (lookupScore smap ((deref store r).id.getD ""))))) r) rsn)) p).score
                = some n ∧ 0 ≤ n ∧ n ≤ 10 := by
            intro p hp
            rcases eq_or_ne r p with rfl | hne
            · rw [deref_set_self _ (by rw [List.length_set]; exact hlt)]
              obtain ⟨n, hn, hb⟩ :=
                hbound1 r (List.mem_append.mpr (Or.inr (List.mem_singleton.mpr rfl)))
              exact ⟨n, hn, hb⟩
            · rw [deref_set_ne _ hne]
              exact hbound1 p hp
          exact ih _ _ hval' hacc'

/-! ## Parsed-path lemmas for an empty score map -/

theorem zeroScoreUpdate_idem (j : Job) : zeroScoreUpdate (zeroScoreUpdate j) = zeroScoreUpdate j := rfl

/-- With an empty score map every candidate is scored `0` with reason `""`,
and nothing raises: one loop iteration is exactly `zeroScoreUpdate`. -/
theorem rankTryLoop_nil_step (store : List Job) (r : Nat) (rs acc : List Nat) :
    rankTryLoop [] store (r :: rs) acc
      = rankTryLoop [] ((store.set r (setScore (deref store r) 0)).set r
          (setReason (deref (store.set r (setScore (deref store r) 0)) r) "")) rs (acc ++ [r]) := rfl

theorem rankTryLoop_nil_ok (refs : List Nat) :
    ∀ (store : List Job) (acc : List Nat), (rankTryLoop [] store refs acc).2.2 = true := by
  induction refs with
  | nil => intro store acc; rfl
  | cons r rs ih =>
      intro store acc
      rw [rankTryLoop_nil_step]
      exact ih _ _

theorem rankTryLoop_nil_set_collapse (store : List Job) (r : Nat) (h : r < store.length) :
    (store.set r (setScore (deref store r) 0)).set r
        (setReason (deref (store.set r (setScore (deref store r) 0)) r) "")
      = store.set r (zeroScoreUpdate (deref store r)) := by
  rw [deref_set_self _ h, List.set_set]
  rfl

theorem rankTryLoop_nil_deref_not_mem {refs : List Nat} {q : Nat} (h : q ∉ refs) :
    ∀ (store : List Job) (acc : List Nat),
      deref (rankTryLoop [] store refs acc).1 q = deref store q := by
  induction refs with
  | nil => intro store acc; rfl
  | cons r rs ih =>
      intro store acc
      rw [rankTryLoop_nil_step, ih (fun hq => h (List.mem_cons_of_mem r hq))]
      have hne : r ≠ q := fun hrq => h (hrq ▸ List.mem_cons_self r rs)
      rw [deref_set_ne _ hne, deref_set_ne _ hne]

theorem rankTryLoop_nil_deref_mem {refs : List Nat} {store : List Job}
    (hval : ∀ r ∈ refs, r < store.length) :
    ∀ q ∈ refs, ∀ acc, deref (rankTryLoop [] store refs acc).1 q
      = zeroScoreUpdate (deref store q) := by
  induction refs generalizing store with
  | nil => intro q hq; cases hq
  | cons r rs ih =>
      intro q hq acc
      have hlt : r < store.length := hval r (List.mem_cons_self r rs)
      rw [rankTryLoop_nil_step, rankTryLoop_nil_set_collapse store r hlt]
      have hval' : ∀ p ∈ rs, p < (store.set r (zeroScoreUpdate (deref store r))).length := by
        intro p hp
        rw [List.length_set]
        exact hval p (List.mem_cons_of_mem r hp)
      have hset : deref (store.set r (zeroScoreUpdate (deref store r))) r
          = zeroScoreUpdate (deref store r) := deref_set_self _ hlt
      by_cases hqrs : q ∈ rs
      · rw [ih hval' q hqrs]
        rcases eq_or_ne r q with rfl | hne
        · rw [hset, zeroScoreUpdate_idem]
        · rw [deref_set_ne _ hne]
      · rcases List.mem_cons.mp hq with rfl | hq'
        · rw [rankTryLoop_nil_deref_not_mem hqrs, hset]
        · exact absurd hq' hqrs

/-! ## Frame lemmas: what each mutation leaves untouched -/

theorem stripMeta_setId (j : Job) (s : String) : stripMeta (setId j s) = stripMeta j := rfl

theorem stripMeta_setScore (j : Job) (n : Int) : stripMeta (setScore j n) = stripMeta j := rfl

theorem stripMeta_setReason (j : Job) (s : String) : stripMeta (setReason j s) = stripMeta j := rfl

theorem stripMeta_heurUpdate (j : Job) : stripMeta (heurUpdate j) = stripMeta j := rfl

theorem stripMeta_deref_set {store : List Job} {r : Nat} {v : Job}
    (hv : stripMeta v = stripMeta (deref store r)) (q : Nat) :
    stripMeta (deref (store.set r v) q) = stripMeta (deref store q) := by
  rcases eq_or_ne r q with rfl | hne
  · rcases Nat.lt_or_ge r store.length with hlt | hge
    · rw [deref_set_self _ hlt, hv]
    · rw [List.set_eq_of_length_le hge]
  · rw [deref_set_ne _ hne]

/-- The filter loop changes no adapter-produced field of any dict. -/
theorem ndfLoop_stripMeta (exc lp : List String) :
    ∀ (rs : List Nat) (store : List Job) (seen : List String) (out : List Nat) (q : Nat),
      stripMeta (deref (ndfLoop exc lp store rs seen out).1 q) = stripMeta (deref store q) := by
  intro rs
  induction rs with
  | nil => intro store seen out q; rfl
  | cons r rs ih =>
      intro store seen out q
      rw [ndfLoop]
      by_cases hkeep : keepJob exc lp (deref store r) = true
      · rw [if_pos hkeep]
        by_cases hseen : seen.contains (stable_job_id (deref store r)) = true
        · rw [if_pos hseen, ih]
        · rw [if_neg hseen, ih]
          exact stripMeta_deref_set (stripMeta_setId _ _) q
      · rw [if_neg hkeep, ih]

/-- The heuristic loop changes no adapter-produced field of any dict. -/
theorem heuristicLoop_stripMeta :
    ∀ (refs : List Nat) (store : List Job) (acc : List Nat) (q : Nat),
      stripMeta (deref (heuristicLoop store refs acc).1 q) = stripMeta (deref store q) := by
  intro refs
  induction refs with
  | nil => intro store acc q; rfl
  | cons r rs ih =>
      intro store acc q
      rw [heuristicLoop, ih]
      exact stripMeta_deref_set (stripMeta_heurUpdate _) q

/-- The scoring `try` loop changes no adapter-produced field of any dict. -/
theorem rankTryLoop_stripMeta (smap : List (Json × Json)) :
    ∀ (refs : List Nat) (store : List Job) (acc : List Nat) (q : Nat),
      stripMeta (deref (rankTryLoop smap store refs acc).1 q) = stripMeta (deref store q) := by
  intro refs
  induction refs with
  | nil => intro store acc q; rfl
  | cons r rs ih =>
      intro store acc q
      rw [rankTryLoop]
      cases hstrip : reasonStrip (lookupScore smap ((deref store r).id.getD "")) with
      | none => exact stripMeta_deref_set (stripMeta_setScore _ _) q
      | some rsn =>
          rw [ih]
          rw [stripMeta_deref_set (stripMeta_setReason _ _) q]
          exact stripMeta_deref_set (stripMeta_setScore _ _) q

/-! ## Fingerprint-key lemmas -/

/-- Joining with a separator that occurs in neither left part is injective
in the first component. -/
theorem pipe_append_inj :
    ∀ {a b r1 r2 : List Char}, '|' ∉ a → '|' ∉ b →
      a ++ '|' :: r1 = b ++ '|' :: r2 → a = b ∧ r1 = r2 := by
  intro a
  induction a with
  | nil =>
      intro b r1 r2 _ hb h
      cases b with
      | nil => simpa using h
      | cons c bs =>
          simp only [List.nil_append, List.cons_append, List.cons.injEq] at h
          exact absurd (h.1 ▸ List.mem_cons_self c bs) hb
  | cons c as ih =>
      intro b r1 r2 ha hb h
      cases b with
      | nil =>
          simp only [List.cons_append, List.nil_append, List.cons.injEq] at h
          exact absurd (h.1 ▸ List.mem_cons_self c as) ha
      | cons c' bs =>
          simp only [List.cons_append, List.cons.injEq] at h
          obtain ⟨rfl, h2⟩ := h
          obtain ⟨rfl, hr⟩ := ih (fun hm => ha (List.mem_cons_of_mem c hm))
            (fun hm => hb (List.mem_cons_of_mem c hm)) h2
          exact ⟨rfl, hr⟩

theorem jobKey_data (j : Job) :
    (jobKey j).data
      = j.source.data ++ '|' :: (j.company.data ++ '|' :: (j.title.data ++ '|' :: j.url.data)) := by
  show (j.source ++ "|" ++ j.company ++ "|" ++ j.title ++ "|" ++ j.url).data = _
  simp only [show ∀ a b : String, (a ++ b).data = a.data ++ b.data from fun a b => rfl]
  simp

/-- On listings whose four key fields avoid the `"|"` separator, equal
fingerprint keys force equal field tuples. -/
theorem jobKey_inj {j1 j2 : Job}
    (h1s : '|' ∉ j1.source.data) (h1c : '|' ∉ j1.company.data)
    (h1t : '|' ∉ j1.title.data) (h2s : '|' ∉ j2.source.data)
    (h2c : '|' ∉ j2.company.data) (h2t : '|' ∉ j2.title.data)
    (h : jobKey j1 = jobKey j2) :
    j1.source = j2.source ∧ j1.company = j2.company ∧ j1.title = j2.title ∧ j1.url = j2.url := by
  have hd : (jobKey j1).data = (jobKey j2).data := by rw [h]
  rw [jobKey_data, jobKey_data] at hd
  obtain ⟨hs, hd⟩ := pipe_append_inj h1s h2s hd
  obtain ⟨hc, hd⟩ := pipe_append_inj h1c h2c hd
  obtain ⟨ht, hu⟩ := pipe_append_inj h1t h2t hd
  exact ⟨String.ext hs, String.ext hc, String.ext ht, String.ext hu⟩

/-- A listing that passes the keep checks has no exclusion keyword in its
search text. -/
theorem keepJob_not_excluded {exc lp : List String} {j : Job}
    (h : keepJob exc lp j = true) :
    ∀ x ∈ exc, strIn x (searchText j) = false := by
  intro x hx
  by_contra hcon
  have hany : exc.any (fun y => strIn y (searchText j)) = true :=
    List.any_eq_true.mpr ⟨x, hx, Bool.of_not_eq_false hcon⟩
  unfold keepJob at h
  by_cases h1 : pyStrip j.title = ""
  · rw [if_pos h1] at h
    exact Bool.false_ne_true h
  · rw [if_neg h1, if_pos hany] at h
    exact Bool.false_ne_true h

/-- The search text reads only the adapter-produced fields. -/
theorem searchText_stripMeta (j : Job) : searchText (stripMeta j) = searchText j := rfl

/-- The `except`-branch score, written as the spec states it: base 6, plus 1
for an internship term in the lowercased title, plus 1 for a domain term,
capped at 10. -/
theorem heurScore_formula (t : String) :
    heurScore t
      = min 10 ((6 : Int)
          + (if strIn "intern" (pyLower t) || strIn "internship" (pyLower t) then 1 else 0)
          + (if strIn "machine learning" (pyLower t) || strIn "data science" (pyLower t)
              then 1 else 0)) := by
  unfold heurScore
  simp only []
  split_ifs <;> norm_num

/-! ## `agent_rank` path characterisations -/

theorem agent_rank_empty (cfg : Config) (resp : Option Json) (st : State)
    (h : (pySlice cfg.max_jobs_to_score st.jobs).isEmpty = true) :
    agent_rank cfg resp st = some { st with ranked := [] } := by
  unfold agent_rank
  rw [if_pos h]

theorem agent_rank_keyerror (cfg : Config) (resp : Option Json) (st : State)
    (hne : (pySlice cfg.max_jobs_to_score st.jobs).isEmpty = false)
    (hall : (pySlice cfg.max_jobs_to_score st.jobs).all
        (fun r => ((deref st.store r).id).isSome) = false) :
    agent_rank cfg resp st = none := by
  unfold agent_rank
  rw [if_neg (by rw [hne]; exact Bool.false_ne_true), if_pos (by rw [hall]; rfl)]

theorem agent_rank_fallback (cfg : Config) (st : State)
    (hne : (pySlice cfg.max_jobs_to_score st.jobs).isEmpty = false)
    (hall : (pySlice cfg.max_jobs_to_score st.jobs).all
        (fun r => ((deref st.store r).id).isSome) = true) :
    agent_rank cfg none st
      = some { st with
          store := (heuristicLoop st.store (pySlice cfg.max_jobs_to_score st.jobs) []).1
          ranked := sortDesc
            (scoreKey (heuristicLoop st.store (pySlice cfg.max_jobs_to_score st.jobs) []).1)
            (heuristicLoop st.store (pySlice cfg.max_jobs_to_score st.jobs) []).2 } := by
  unfold agent_rank
  rw [if_neg (by rw [hne]; exact Bool.false_ne_true),
    if_neg (by rw [hall]; exact Bool.false_ne_true)]

theorem agent_rank_mapfail (cfg : Config) (st : State) (js : Json)
    (hne : (pySlice cfg.max_jobs_to_score st.jobs).isEmpty = false)
    (hall : (pySlice cfg.max_jobs_to_score st.jobs).all
        (fun r => ((deref st.store r).id).isSome) = true)
    (hmap : buildScoreMap js = none) :
    agent_rank cfg (some js) st
      = some { st with
          store := (heuristicLoop st.store (pySlice cfg.max_jobs_to_score st.jobs) []).1
          ranked := sortDesc
            (scoreKey (heuristicLoop st.store (pySlice cfg.max_jobs_to_score st.jobs) []).1)
            (heuristicLoop st.store (pySlice cfg.max_jobs_to_score st.jobs) []).2 } := by
  unfold agent_rank
  rw [if_neg (by rw [hne]; exact Bool.false_ne_true),
    if_neg (by rw [hall]; exact Bool.false_ne_true)]
  simp only [hmap]

theorem agent_rank_parse_ok (cfg : Config) (st : State) (js : Json)
    (smap : List (Json × Json))
    (hne : (pySlice cfg.max_jobs_to_score st.jobs).isEmpty = false)
    (hall : (pySlice cfg.max_jobs_to_score st.jobs).all
        (fun r => ((deref st.store r).id).isSome) = true)
    (hmap : buildScoreMap js = some smap)
    (hok : (rankTryLoop smap st.store (pySlice cfg.max_jobs_to_score st.jobs) []).2.2 = true) :
    agent_rank cfg (some js) st
      = some { st with
          store := (rankTryLoop smap st.store (pySlice cfg.max_jobs_to_score st.jobs) []).1
          ranked := sortDesc
            (scoreKey (rankTryLoop smap st.store (pySlice cfg.max_jobs_to_score st.jobs) []).1)
            (rankTryLoop smap st.store (pySlice cfg.max_jobs_to_score st.jobs) []).2.1 } := by
  unfold agent_rank
  rw [if_neg (by rw [hne]; exact Bool.false_ne_true),
    if_neg (by rw [hall]; exact Bool.false_ne_true)]
  simp only [hmap]
  rw [if_pos hok]

theorem agent_rank_parse_abort (cfg : Config) (st : State) (js : Json)
    (smap : List (Json × Json))
    (hne : (pySlice cfg.max_jobs_to_score st.jobs).isEmpty = false)
    (hall : (pySlice cfg.max_jobs_to_score st.jobs).all
        (fun r => ((deref st.store r).id).isSome) = true)
    (hmap : buildScoreMap js = some smap)
    (hok : (rankTryLoop smap st.store (pySlice cfg.max_jobs_to_score st.jobs) []).2.2 = false) :
    agent_rank cfg (some js) st
      = some { st with
          store := (heuristicLoop
            (rankTryLoop smap st.store (pySlice cfg.max_jobs_to_score st.jobs) []).1
            (pySlice cfg.max_jobs_to_score st.jobs)
            (rankTryLoop smap st.store (pySlice cfg.max_jobs_to_score st.jobs) []).2.1).1
          ranked := sortDesc
            (scoreKey (heuristicLoop
              (rankTryLoop smap st.store (pySlice cfg.max_jobs_to_score st.jobs) []).1
              (pySlice cfg.max_jobs_to_score st.jobs)
              (rankTryLoop smap st.store (pySlice cfg.max_jobs_to_score st.jobs) []).2.1).1)
            (heuristicLoop
              (rankTryLoop smap st.store (pySlice cfg.max_jobs_to_score st.jobs) []).1
              (pySlice cfg.max_jobs_to_score st.jobs)
              (rankTryLoop smap st.store (pySlice cfg.max_jobs_to_score st.jobs) []).2.1).2 } := by
  unfold agent_rank
  rw [if_neg (by rw [hne]; exact Bool.false_ne_true),
    if_neg (by rw [hall]; exact Bool.false_ne_true)]
  simp only [hmap]
  rw [if_neg (by rw [hok]; exact Bool.false_ne_true)]

/-- Exactly one of the five `agent_rank` paths applies; this inversion
recovers, from a successful run, which output it produced. -/
theorem agent_rank_inversion (cfg : Config) (resp : Option Json) (st st' : State)
    (h : agent_rank cfg resp st = some st') :
    ((pySlice cfg.max_jobs_to_score st.jobs).isEmpty = true ∧ st' = { st with ranked := [] }) ∨
    ((pySlice cfg.max_jobs_to_score st.jobs).isEmpty = false ∧
      (pySlice cfg.max_jobs_to_score st.jobs).all
        (fun r => ((deref st.store r).id).isSome) = true ∧
      ((∃ pre : List Nat,
          st' = { st with
            store := (heuristicLoop st.store (pySlice cfg.max_jobs_to_score st.jobs) pre).1
            ranked := sortDesc
              (scoreKey (heuristicLoop st.store (pySlice cfg.max_jobs_to_score st.jobs) pre).1)
              (heuristicLoop st.store (pySlice cfg.max_jobs_to_score st.jobs) pre).2 } ∧
          pre = []) ∨
       (∃ js : Json, ∃ smap : List (Json × Json),
          resp = some js ∧ buildScoreMap js = some smap ∧
          (rankTryLoop smap st.store (pySlice cfg.max_jobs_to_score st.jobs) []).2.2 = true ∧
          st' = { st with
            store := (rankTryLoop smap st.store (pySlice cfg.max_jobs_to_score st.jobs) []).1
            ranked := sortDesc
              (scoreKey (rankTryLoop smap st.store (pySlice cfg.max_jobs_to_score st.jobs) []).1)
              (rankTryLoop smap st.store (pySlice cfg.max_jobs_to_score st.jobs) []).2.1 }) ∨
       (∃ js : Json, ∃ smap : List (Json × Json),
          resp = some js ∧ buildScoreMap js = some smap ∧
          (rankTryLoop smap st.store (pySlice cfg.max_jobs_to_score st.jobs) []).2.2 = false ∧
          st' = { st with
            store := (heuristicLoop
              (rankTryLoop smap st.store (pySlice cfg.max_jobs_to_score st.jobs) []).1
              (pySlice cfg.max_jobs_to_score st.jobs)
              (rankTryLoop smap st.store (pySlice cfg.max_jobs_to_score st.jobs) []).2.1).1
            ranked := sortDesc
              (scoreKey (heuristicLoop
                (rankTryLoop smap st.store (pySlice cfg.max_jobs_to_score st.jobs) []).1
                (pySlice cfg.max_jobs_to_score st.jobs)
                (rankTryLoop smap st.store (pySlice cfg.max_jobs_to_score st.jobs) []).2.1).1)
              (heuristicLoop
                (rankTryLoop smap st.store (pySlice cfg.max_jobs_to_score st.jobs) []).1
                (pySlice cfg.max_jobs_to_score st.jobs)
                (rankTryLoop smap st.store (pySlice cfg.max_jobs_to_score st.jobs) []).2.1).2 }))) := by
  by_cases hempty : (pySlice cfg.max_jobs_to_score st.jobs).isEmpty = true
  · left
    refine ⟨hempty, ?_⟩
    have := agent_rank_empty cfg resp st hempty
    rw [this] at h
    exact (Option.some.injEq _ _).mp h.symm ▸ rfl
  · right
    have hne : (pySlice cfg.max_jobs_to_score st.jobs).isEmpty = false :=
      Bool.eq_false_iff.mpr hempty
    by_cases hall : (pySlice cfg.max_jobs_to_score st.jobs).all
        (fun r => ((deref st.store r).id).isSome) = true
    · refine ⟨hne, hall, ?_⟩
      cases resp with
      | none =>
          left
          refine ⟨[], ?_, rfl⟩
          have := agent_rank_fallback cfg st hne hall
          rw [this] at h
          exact (Option.some_inj.mp h).symm
      | some js =>
          cases hmap : buildScoreMap js with
          | none =>
              left
              refine ⟨[], ?_, rfl⟩
              have := agent_rank_mapfail cfg st js hne hall hmap
              rw [this] at h
              exact (Option.some_inj.mp h).symm
          | some smap =>
              cases hok : (rankTryLoop smap st.store
                  (pySlice cfg.max_jobs_to_score st.jobs) []).2.2 with
              | true =>
                  right; left
                  refine ⟨js, smap, rfl, hmap, hok, ?_⟩
                  have := agent_rank_parse_ok cfg st js smap hne hall hmap hok
                  rw [this] at h
                  exact (Option.some_inj.mp h).symm
              | false =>
                  right; right
                  refine ⟨js, smap, rfl, hmap, hok, ?_⟩
                  have := agent_rank_parse_abort cfg st js smap hne hall hmap hok
                  rw [this] at h
                  exact (Option.some_inj.mp h).symm
    · have hall' : (pySlice cfg.max_jobs_to_score st.jobs).all
          (fun r => ((deref st.store r).id).isSome) = false :=
        Bool.eq_false_iff.mpr hall
      rw [agent_rank_keyerror cfg resp st hne hall'] at h
      cases h

/-! ## The claims

Each claim of the specification is settled by one theorem below (with a
counterexample theorem where the claim, as frozen, fails on the code). -/

/-- **C9**: the Source Aggregator never aborts (it is a total function of the
adapter outcomes); its `raw_jobs` output is the concatenation, in adapter
invocation order, of the results of exactly the successful adapters, each in
its native order, and a failing adapter (modelled `none`) contributes the
empty sequence — dropping a failing adapter from the run leaves the output
unchanged. -/
theorem claim_C9 (results : List (Option (List Job))) (st : State) :
    (tool_fetch results st).rawList = (results.map fun a => a.getD []).flatten ∧
    ∀ pre post : List (Option (List Job)),
      fetchLoop (pre ++ none :: post) = fetchLoop (pre ++ post) := by
  constructor
  · show ((List.range (fetchLoop results).length).map fun i => st.store.length + i).map
        (deref (st.store ++ fetchLoop results)) = _
    rw [List.map_map]
    rw [show (deref (st.store ++ fetchLoop results) ∘ fun i => st.store.length + i)
          = fun i => deref (st.store ++ fetchLoop results) (st.store.length + i) from rfl]
    rw [range_map_deref_append, fetchLoop_eq_join]
  · intro pre post
    rw [fetchLoop_eq_join, fetchLoop_eq_join]
    simp

/-- **C6**: the Normalizer/Filter is idempotent — feeding its own output
back in as the raw listing list reproduces the state unchanged (the output
is a literal fixpoint), and in particular the filtered listing sequence is
the same. -/
theorem claim_C6 (cfg : Config) (st : State) :
    tool_normalize_dedupe_filter cfg
        { tool_normalize_dedupe_filter cfg st with
          raw_jobs := (tool_normalize_dedupe_filter cfg st).jobs }
      = { tool_normalize_dedupe_filter cfg st with
          raw_jobs := (tool_normalize_dedupe_filter cfg st).jobs } := by
  obtain ⟨hmem, hnd⟩ := tool_ndf_spec cfg st
  have hkeep :
      ∀ r ∈ (tool_normalize_dedupe_filter cfg st).jobs,
        keepJob (cfg.keywords_exclude.map pyLower) (cfg.locations_prefer.map pyLower)
            (deref (tool_normalize_dedupe_filter cfg st).store r) = true ∧
        (deref (tool_normalize_dedupe_filter cfg st).store r).id
          = some (stable_job_id (deref (tool_normalize_dedupe_filter cfg st).store r)) ∧
        ([] : List String).contains
            (stable_job_id (deref (tool_normalize_dedupe_filter cfg st).store r)) = false := by
    intro r hr
    exact ⟨(hmem r hr).1, (hmem r hr).2, rfl⟩
  obtain ⟨hstore, hout⟩ := ndfLoop_keep_all
    (cfg.keywords_exclude.map pyLower) (cfg.locations_prefer.map pyLower)
    (tool_normalize_dedupe_filter cfg st).jobs
    (tool_normalize_dedupe_filter cfg st).store [] [] hkeep hnd
  show ({ { tool_normalize_dedupe_filter cfg st with
      raw_jobs := (tool_normalize_dedupe_filter cfg st).jobs } with
      store := (ndfLoop (cfg.keywords_exclude.map pyLower) (cfg.locations_prefer.map pyLower)
        (tool_normalize_dedupe_filter cfg st).store
        (tool_normalize_dedupe_filter cfg st).jobs [] []).1,
      jobs := (ndfLoop (cfg.keywords_exclude.map pyLower) (cfg.locations_prefer.map pyLower)
        (tool_normalize_dedupe_filter cfg st).store
        (tool_normalize_dedupe_filter cfg st).jobs [] []).2.2 } : State) = _
  rw [hstore, hout]
  rfl

/-- **C8**: a raw listing whose derived search text contains a configured
(lowercased) exclusion keyword never appears in the filter output, whatever
its other fields: no kept reference denotes a dict with the same
adapter-produced content. -/
theorem claim_C8 (cfg : Config) (st : State) (j : Job) (kw : String)
    (_hj : j ∈ st.rawList)
    (hkw : kw ∈ cfg.keywords_exclude.map pyLower)
    (hsub : strIn kw (searchText j) = true) :
    ∀ r ∈ (tool_normalize_dedupe_filter cfg st).jobs,
      stripMeta (deref (tool_normalize_dedupe_filter cfg st).store r) ≠ stripMeta j := by
  intro r hr hEq
  obtain ⟨hmem, _⟩ := tool_ndf_spec cfg st
  have hkeep := (hmem r hr).1
  have hex := keepJob_not_excluded hkeep kw hkw
  have htext : searchText (deref (tool_normalize_dedupe_filter cfg st).store r) = searchText j := by
    calc searchText (deref (tool_normalize_dedupe_filter cfg st).store r)
        = searchText (stripMeta (deref (tool_normalize_dedupe_filter cfg st).store r)) :=
          (searchText_stripMeta _).symm
      _ = searchText (stripMeta j) := by rw [hEq]
      _ = searchText j := searchText_stripMeta j
  rw [htext, hsub] at hex
  exact absurd hex (by simp)


/-- **C8** (witness): the default configuration's keyword `"senior"` occurs
in the search text of `exJobSenior`, and applying the theorem shows the kept
reference `0` (were it kept) cannot denote that listing. -/
theorem claim_C8_witness :
    exJobSenior ∈ State.rawList { store := [exJobSenior], raw_jobs := [0] } ∧
    "senior" ∈ defaultConfig.keywords_exclude.map pyLower ∧
    strIn "senior" (searchText exJobSenior) = true ∧
    (0 ∈ (tool_normalize_dedupe_filter defaultConfig
        { store := [exJobSenior], raw_jobs := [0] }).jobs →
      stripMeta (deref (tool_normalize_dedupe_filter defaultConfig
          { store := [exJobSenior], raw_jobs := [0] }).store 0) ≠ stripMeta exJobSenior) :=
  ⟨by decide, by decide, by decide,
    fun h0 =>
      claim_C8 defaultConfig { store := [exJobSenior], raw_jobs := [0] } exJobSenior "senior"
        (by decide) (by decide) (by decide) 0 h0⟩

/-- **C3** (amended): the fingerprint is deterministic — equal
`(source, company, title, url)` tuples always yield equal ids — and the
joined key `source|company|title|url` is injective on tuples whose fields
avoid the `"|"` separator (so distinct such tuples yield distinct ids
whenever MD5 separates their distinct keys); but a tuple whose fields
contain `"|"` can join to the same key as a different tuple, and then the
ids coincide (see the counterexample). -/
theorem claim_C3 :
    (∀ j1 j2 : Job, j1.source = j2.source → j1.company = j2.company →
        j1.title = j2.title → j1.url = j2.url → stable_job_id j1 = stable_job_id j2) ∧
    (∀ j1 j2 : Job,
        '|' ∉ j1.source.data → '|' ∉ j1.company.data → '|' ∉ j1.title.data →
        '|' ∉ j2.source.data → '|' ∉ j2.company.data → '|' ∉ j2.title.data →
        jobKey j1 = jobKey j2 →
        j1.source = j2.source ∧ j1.company = j2.company ∧
        j1.title = j2.title ∧ j1.url = j2.url) := by
  constructor
  · intro j1 j2 hs hc ht hu
    show md5hex (jobKey j1) = md5hex (jobKey j2)
    unfold jobKey
    rw [hs, hc, ht, hu]
  · intro j1 j2 h1s h1c h1t h2s h2c h2t h
    exact jobKey_inj h1s h1c h1t h2s h2c h2t h

/-- **C3** (counterexample): the claim "changing any one of the four fields
changes the id" fails — `exJobPipeA` and `exJobPipeB` differ in `source` and
`company`, yet their `"|"`-joined keys are the same string, so their MD5
fingerprints are identical. -/
theorem claim_C3_counterexample :
    (exJobPipeA.source ≠ exJobPipeB.source ∨ exJobPipeA.company ≠ exJobPipeB.company ∨
      exJobPipeA.title ≠ exJobPipeB.title ∨ exJobPipeA.url ≠ exJobPipeB.url) ∧
    stable_job_id exJobPipeA = stable_job_id exJobPipeB := by
  constructor
  · left
    decide
  · show md5hex (jobKey exJobPipeA) = md5hex (jobKey exJobPipeB)
    rw [show jobKey exJobPipeA = jobKey exJobPipeB from by decide]

/-- **C3** (witness): determinism applied to two dicts equal in the four key
fields but different in `tags`, and key injectivity applied to two
pipe-free dicts with equal keys. -/
theorem claim_C3_witness :
    stable_job_id exJobSenior = stable_job_id { exJobSenior with tags := ["x"] } ∧
    ({ exJobSenior with tags := ["x"] } : Job).source = exJobSenior.source :=
  ⟨(claim_C3).1 exJobSenior { exJobSenior with tags := ["x"] } rfl rfl rfl rfl,
    ((claim_C3).2 { exJobSenior with tags := ["x"] } exJobSenior
      (by decide) (by decide) (by decide) (by decide) (by decide) (by decide) (by decide)).1⟩

/-- **C5** (amended): when `max_alerts` is non-negative (as the default and
any sensible configuration has it), the alert selector returns at most
`max_alerts` entries, each with score at least `min_score_to_alert`, as a
sublist of the ranked sequence (so in ranked order), and replaces only the
`alert` field — no other state field and no store entry changes.  (For a
negative `max_alerts` the claimed length bound is violated — Python slices
count a negative stop from the end — see the counterexample.) -/
theorem claim_C5 (cfg : Config) (st : State) (hpos : 0 ≤ cfg.max_alerts) :
    (((pick_alert cfg st).alert.length : Int) ≤ cfg.max_alerts ∧
      ∀ r ∈ (pick_alert cfg st).alert,
        cfg.min_score_to_alert ≤ ((deref (pick_alert cfg st).store r).score).getD 0) ∧
    (pick_alert cfg st).alert.Sublist st.ranked ∧
    (pick_alert cfg st).store = st.store ∧ (pick_alert cfg st).ranked = st.ranked ∧
    (pick_alert cfg st).raw_jobs = st.raw_jobs ∧ (pick_alert cfg st).jobs = st.jobs ∧
    (pick_alert cfg st).report_md = st.report_md := by
  refine ⟨⟨length_pySlice_le hpos _, ?_⟩, ?_, rfl, rfl, rfl, rfl, rfl⟩
  · intro r hr
    have hr' : r ∈ st.ranked.filter
        (fun r => decide (cfg.min_score_to_alert ≤ ((deref st.store r).score).getD 0)) :=
      (pySlice_sublist _ _).mem hr
    exact of_decide_eq_true (List.mem_filter.mp hr').2
  · exact (pySlice_sublist _ _).trans (List.filter_sublist _)

/-- **C5** (counterexample): with `max_alerts = -1` (any configuration is
admitted by the claim) even an empty selection violates
`len(alert) <= max_alerts`, because a list length is never negative. -/
theorem claim_C5_counterexample :
    ¬ (((pick_alert exCfgNeg { store := [], ranked := [] }).alert.length : Int)
        ≤ exCfgNeg.max_alerts) := by
  decide

/-- **C5** (witness): the amended theorem applied to the default
configuration and a one-candidate ranked state. -/
theorem claim_C5_witness :
    (((pick_alert defaultConfig exState1).alert.length : Int) ≤ defaultConfig.max_alerts ∧
      ∀ r ∈ (pick_alert defaultConfig exState1).alert,
        defaultConfig.min_score_to_alert
          ≤ ((deref (pick_alert defaultConfig exState1).store r).score).getD 0) ∧
    (pick_alert defaultConfig exState1).alert.Sublist exState1.ranked ∧
    (pick_alert defaultConfig exState1).store = exState1.store ∧
    (pick_alert defaultConfig exState1).ranked = exState1.ranked ∧
    (pick_alert defaultConfig exState1).raw_jobs = exState1.raw_jobs ∧
    (pick_alert defaultConfig exState1).jobs = exState1.jobs ∧
    (pick_alert defaultConfig exState1).report_md = exState1.report_md :=
  claim_C5 defaultConfig exState1 (by decide)

/-- **C1**: when the oracle response does not parse as JSON, every candidate
listing (each dict in `jobs[:max_jobs_to_score]`, all carrying an `id`)
receives a score and a reason — none is missing from the ranked output, and
each dict holds exactly the heuristic update: score
`min(10, 6 + intern-bonus + domain-bonus)` computed from the lowercased
title, and the fixed fallback reason string. -/
theorem claim_C1 (cfg : Config) (st : State)
    (hid : ∀ r ∈ pySlice cfg.max_jobs_to_score st.jobs, ((deref st.store r).id).isSome = true) :
    ∃ st', agent_rank cfg none st = some st' ∧
      st'.ranked.Perm (pySlice cfg.max_jobs_to_score st.jobs) ∧
      ∀ r ∈ pySlice cfg.max_jobs_to_score st.jobs,
        deref st'.store r = heurUpdate (deref st.store r) ∧
        (deref st'.store r).score
          = some (min 10 ((6 : Int)
              + (if strIn "intern" (pyLower (deref st.store r).title)
                    || strIn "internship" (pyLower (deref st.store r).title) then 1 else 0)
              + (if strIn "machine learning" (pyLower (deref st.store r).title)
                    || strIn "data science" (pyLower (deref st.store r).title)
                  then 1 else 0))) ∧
        (deref st'.store r).reason = some fallbackReason := by
  by_cases hempty : (pySlice cfg.max_jobs_to_score st.jobs).isEmpty = true
  · refine ⟨{ st with ranked := [] }, agent_rank_empty cfg none st hempty, ?_, ?_⟩
    · show ([] : List Nat).Perm _
      rw [List.isEmpty_iff.mp hempty]
    · intro r hr
      rw [List.isEmpty_iff.mp hempty] at hr
      cases hr
  · have hne : (pySlice cfg.max_jobs_to_score st.jobs).isEmpty = false :=
      Bool.eq_false_iff.mpr hempty
    have hall : (pySlice cfg.max_jobs_to_score st.jobs).all
        (fun r => ((deref st.store r).id).isSome) = true := List.all_eq_true.mpr hid
    refine ⟨_, agent_rank_fallback cfg st hne hall, ?_, ?_⟩
    · have heq : (heuristicLoop st.store (pySlice cfg.max_jobs_to_score st.jobs) []).2
          = pySlice cfg.max_jobs_to_score st.jobs := by
        rw [heuristicLoop_acc]
        simp
      have hp2 : (heuristicLoop st.store (pySlice cfg.max_jobs_to_score st.jobs) []).2.Perm
          (pySlice cfg.max_jobs_to_score st.jobs) := by
        rw [heq]
      exact (sortDesc_perm _ _).trans hp2
    · intro r hr
      have hval : ∀ p ∈ pySlice cfg.max_jobs_to_score st.jobs, p < st.store.length :=
        fun p hp => lt_length_of_id_isSome (hid p hp)
      have hd := heuristicLoop_deref_mem hval r hr []
      refine ⟨hd, ?_, ?_⟩
      · rw [hd]
        show some (heurScore (deref st.store r).title) = _
        rw [heurScore_formula]
      · rw [hd]
        rfl

/-- **C1** (witness): the single candidate of `exState1` (title
`"ml intern"`) gets heuristic score `7 = min(10, 6 + 1 + 0)` and the
fallback reason when the response is not JSON. -/
theorem claim_C1_witness :
    (∀ r ∈ pySlice defaultConfig.max_jobs_to_score exState1.jobs,
        ((deref exState1.store r).id).isSome = true) ∧
    (∃ st', agent_rank defaultConfig none exState1 = some st' ∧
      st'.ranked.Perm (pySlice defaultConfig.max_jobs_to_score exState1.jobs) ∧
      ∀ r ∈ pySlice defaultConfig.max_jobs_to_score exState1.jobs,
        deref st'.store r = heurUpdate (deref exState1.store r) ∧
        (deref st'.store r).score
          = some (min 10 ((6 : Int)
              + (if strIn "intern" (pyLower (deref exState1.store r).title)
                    || strIn "internship" (pyLower (deref exState1.store r).title) then 1 else 0)
              + (if strIn "machine learning" (pyLower (deref exState1.store r).title)
                    || strIn "data science" (pyLower (deref exState1.store r).title)
                  then 1 else 0))) ∧
        (deref st'.store r).reason = some fallbackReason) :=
  ⟨by decide, claim_C1 defaultConfig exState1 (by decide)⟩

/-- **C7**: every ranked candidate's attached score lies in `[0, 10]`, on
the parsed path (clamped) as well as on the heuristic path; and on the
parsed path a candidate absent from the score map gets score `0`, a
non-numeric score value defaults to `0`, and an integer score is clamped
into `[0, 10]`. -/
theorem claim_C7 (cfg : Config) (resp : Option Json) (st st' : State)
    (h : agent_rank cfg resp st = some st') :
    (∀ r ∈ st'.ranked, ∃ n, (deref st'.store r).score = some n ∧ 0 ≤ n ∧ n ≤ 10) ∧
    clampScore (Json.obj []) = 0 ∧
    (∀ v : Json, pyIntOf v = none → clampScore (Json.obj [("score", v)]) = 0) ∧
    (∀ n : Int, clampScore (Json.obj [("score", Json.num n)]) = max 0 (min 10 n)) := by
  refine ⟨?_, rfl, ?_, ?_⟩
  · rcases agent_rank_inversion cfg resp st st' h with
      ⟨_, rfl⟩ | ⟨_, hall, ⟨pre, rfl, rfl⟩ | ⟨js, smap, _, _, hok, rfl⟩ | ⟨js, smap, _, _, hok, rfl⟩⟩
    · intro r hr
      cases hr
    all_goals
      have hval : ∀ p ∈ pySlice cfg.max_jobs_to_score st.jobs, p < st.store.length :=
        fun p hp => lt_length_of_id_isSome (List.all_eq_true.mp hall p hp)
    · intro r hr
      rw [mem_sortDesc] at hr
      exact heuristicLoop_score_bounded hval (fun q hq => absurd hq (List.not_mem_nil q)) r hr
    · intro r hr
      rw [mem_sortDesc] at hr
      exact rankTryLoop_score_bounded smap _ _ _ hval
        (fun q hq => absurd hq (List.not_mem_nil q)) r hr
    · intro r hr
      rw [mem_sortDesc] at hr
      have hval' : ∀ p ∈ pySlice cfg.max_jobs_to_score st.jobs,
          p < (rankTryLoop smap st.store (pySlice cfg.max_jobs_to_score st.jobs) []).1.length := by
        intro p hp
        rw [rankTryLoop_length]
        exact hval p hp
      exact heuristicLoop_score_bounded hval'
        (rankTryLoop_score_bounded smap _ _ _ hval
          (fun q hq => absurd hq (List.not_mem_nil q))) r hr
  · intro v hv
    simp [clampScore, objGet, objFieldsGet, hv]
  · intro n
    simp [clampScore, objGet, objFieldsGet, pyIntOf]

/-- **C7** (witness): the heuristic run on `exState1` (and the clamp facts
at score values `Json.null` and `12`). -/
theorem claim_C7_witness :
    (∀ r ∈ exState1Ranked.ranked,
      ∃ n, (deref exState1Ranked.store r).score = some n ∧ 0 ≤ n ∧ n ≤ 10) ∧
    clampScore (Json.obj []) = 0 ∧
    (∀ v : Json, pyIntOf v = none → clampScore (Json.obj [("score", v)]) = 0) ∧
    (∀ n : Int, clampScore (Json.obj [("score", Json.num n)]) = max 0 (min 10 n)) :=
  claim_C7 defaultConfig none exState1 exState1Ranked (by decide)

/-- **C10** (amended): when the parsed response iterates to no well-shaped
score objects — a JSON array of non-objects or of objects lacking `"id"`, a
string, or an object (whose iteration yields keys) — the score map is empty,
the parsed path runs, and every candidate receives score `0` and the empty
reason (never the heuristic fallback).  But when the parsed value is not
iterable (a number, boolean or `null`) — equally "valid JSON with no
well-shaped score objects" — iterating it raises `TypeError` and the
heuristic fallback IS used, contrary to the claim (see the
counterexample). -/
theorem claim_C10 (cfg : Config) (st : State) (js : Json)
    (hid : ∀ r ∈ pySlice cfg.max_jobs_to_score st.jobs, ((deref st.store r).id).isSome = true) :
    (buildScoreMap js = some [] →
      ∃ st', agent_rank cfg (some js) st = some st' ∧
        ∀ r ∈ pySlice cfg.max_jobs_to_score st.jobs,
          deref st'.store r = zeroScoreUpdate (deref st.store r)) ∧
    (buildScoreMap js = none →
      ∃ st', agent_rank cfg (some js) st = some st' ∧
        ∀ r ∈ pySlice cfg.max_jobs_to_score st.jobs,
          deref st'.store r = heurUpdate (deref st.store r)) := by
  have hval : ∀ p ∈ pySlice cfg.max_jobs_to_score st.jobs, p < st.store.length :=
    fun p hp => lt_length_of_id_isSome (hid p hp)
  by_cases hempty : (pySlice cfg.max_jobs_to_score st.jobs).isEmpty = true
  · constructor
    all_goals
      intro _
      refine ⟨{ st with ranked := [] }, agent_rank_empty cfg (some js) st hempty, ?_⟩
      intro r hr
      rw [List.isEmpty_iff.mp hempty] at hr
      cases hr
  · have hne : (pySlice cfg.max_jobs_to_score st.jobs).isEmpty = false :=
      Bool.eq_false_iff.mpr hempty
    have hall : (pySlice cfg.max_jobs_to_score st.jobs).all
        (fun r => ((deref st.store r).id).isSome) = true := List.all_eq_true.mpr hid
    constructor
    · intro hmap
      refine ⟨_, agent_rank_parse_ok cfg st js [] hne hall hmap
        (rankTryLoop_nil_ok _ _ _), ?_⟩
      intro r hr
      exact rankTryLoop_nil_deref_mem hval r hr []
    · intro hmap
      refine ⟨_, agent_rank_mapfail cfg st js hne hall hmap, ?_⟩
      intro r hr
      exact heuristicLoop_deref_mem hval r hr []

/-- **C10** (counterexample): the response `5` is valid JSON containing no
well-shaped score objects, yet the scorer does use the heuristic fallback:
the candidate of `exState1` (title `"ml intern"`) ends with heuristic score
`7` and the fallback reason, not score `0` and an empty reason as the claim
states. -/
theorem claim_C10_counterexample :
    (agent_rank defaultConfig (some (Json.num 5)) exState1).map
        (fun s => ((deref s.store 0).score, (deref s.store 0).reason))
      = some (some 7, some fallbackReason) ∧
    ¬ ((agent_rank defaultConfig (some (Json.num 5)) exState1).map
        (fun s => ((deref s.store 0).score, (deref s.store 0).reason))
      = some (some 0, some "")) := by
  decide

/-- **C10** (witness): a JSON array whose element is not an object gives the
empty score map, and the candidate of `exState1` is scored `0` with empty
reason through the parsed path. -/
theorem claim_C10_witness :
    (∀ r ∈ pySlice defaultConfig.max_jobs_to_score exState1.jobs,
        ((deref exState1.store r).id).isSome = true) ∧
    buildScoreMap (Json.arr [Json.num 1]) = some [] ∧
    (∃ st', agent_rank defaultConfig (some (Json.arr [Json.num 1])) exState1 = some st' ∧
      ∀ r ∈ pySlice defaultConfig.max_jobs_to_score exState1.jobs,
        deref st'.store r = zeroScoreUpdate (deref exState1.store r)) :=
  ⟨by decide, rfl,
    (claim_C10 defaultConfig exState1 (Json.arr [Json.num 1]) (by decide)).1 rfl⟩

/-- **C4** (amended): the scorer's output is always sorted descending by the
attached scores; and whenever the scoring loop does not raise midway — for
every non-JSON response, every response whose parse cannot be iterated into
a score map, and every parsed run that completes — the pre-sort list is
exactly the candidate list, so entries with equal scores appear in the
candidates' (filtered) relative order.  A parsed entry with a truthy
non-string `reason` aborts the loop midway, after which already-processed
candidates are appended twice and the tie order against the filtered input
can be inverted (see the counterexample). -/
theorem claim_C4 (cfg : Config) (resp : Option Json) (st st' : State)
    (h : agent_rank cfg resp st = some st') :
    List.Pairwise (fun a b => scoreKey st'.store b ≤ scoreKey st'.store a) st'.ranked ∧
    (noMidAbort cfg resp st →
      ∀ k : Int,
        st'.ranked.filter (fun r => decide (scoreKey st'.store r = k))
          = (pySlice cfg.max_jobs_to_score st.jobs).filter
              (fun r => decide (scoreKey st'.store r = k))) := by
  rcases agent_rank_inversion cfg resp st st' h with
    ⟨hempty, rfl⟩ |
    ⟨hne, hall, ⟨pre, rfl, rfl⟩ | ⟨js, smap, rfl, hmapEq, hok, rfl⟩ |
      ⟨js, smap, rfl, hmapEq, hok, rfl⟩⟩
  · constructor
    · exact List.Pairwise.nil
    · intro _ k
      rw [List.isEmpty_iff.mp hempty]
  · constructor
    · exact sortDesc_sorted _ _
    · intro _ k
      have heq : (heuristicLoop st.store (pySlice cfg.max_jobs_to_score st.jobs) []).2
          = pySlice cfg.max_jobs_to_score st.jobs := by
        rw [heuristicLoop_acc]
        simp
      rw [filter_sortDesc, heq]
  · constructor
    · exact sortDesc_sorted _ _
    · intro _ k
      have heq : (rankTryLoop smap st.store (pySlice cfg.max_jobs_to_score st.jobs) []).2.1
          = pySlice cfg.max_jobs_to_score st.jobs := by
        rw [rankTryLoop_ok_acc smap _ _ _ hok]
        simp
      rw [filter_sortDesc, heq]
  · constructor
    · exact sortDesc_sorted _ _
    · intro hmid k
      simp only [noMidAbort] at hmid
      rw [hmapEq] at hmid
      simp only [] at hmid
      rw [hok] at hmid
      cases hmid

/-- **C4** (counterexample): on `exState3` (candidates `[0, 1, 2]`, titles
with no heuristic bonus) and the response `exRespMidAbort` (the entry for
candidate `2` has `reason: 5`, a truthy non-string), the scoring loop
raises midway; the output is `[0, 1, 0, 1, 2]` — positions 1 and 2 hold
candidates `1` then `0` with equal scores `6`, the opposite of their
relative order in the pre-sort filtered input `[0, 1, 2]` (and the output
is not even a permutation of the candidates), refuting the claimed tie
order. -/
theorem claim_C4_counterexample :
    pySlice defaultConfig.max_jobs_to_score exState3.jobs = [0, 1, 2] ∧
    (agent_rank defaultConfig (some exRespMidAbort) exState3).map State.ranked
      = some [0, 1, 0, 1, 2] ∧
    (agent_rank defaultConfig (some exRespMidAbort) exState3).map
        (fun s => (scoreKey s.store 0, scoreKey s.store 1)) = some (6, 6) := by
  decide

/-- **C4** (witness): the amended theorem on the heuristic run of
`exState1`, with the tie class of score `7` instantiated. -/
theorem claim_C4_witness :
    List.Pairwise (fun a b => scoreKey exState1Ranked.store b ≤ scoreKey exState1Ranked.store a)
      exState1Ranked.ranked ∧
    exState1Ranked.ranked.filter (fun r => decide (scoreKey exState1Ranked.store r = 7))
      = (pySlice defaultConfig.max_jobs_to_score exState1.jobs).filter
          (fun r => decide (scoreKey exState1Ranked.store r = 7)) :=
  ⟨(claim_C4 defaultConfig none exState1 exState1Ranked (by decide)).1,
    (claim_C4 defaultConfig none exState1 exState1Ranked (by decide)).2 trivial 7⟩

/-- **C2** (amended): each stage replaces only its own top-level field of
the state record (the `{**state, ...}` copy leaves every other top-level
field — including the reference lists — untouched), and `pick_alert`
changes no listing dict at all; but the listing dicts are shared by
aliasing, and the stages do mutate them in place: normalization writes
`id` into the kept raw dicts and scoring writes `score`/`reason` into the
dicts shared by `raw_jobs` and `jobs` (the counterexample shows the shared
record change).  What is preserved per dict is exactly the
adapter-produced content (`stripMeta`). -/
theorem claim_C2 (cfg : Config) (resp : Option Json) (st st' : State)
    (h : agent_rank cfg resp st = some st') :
    ((tool_normalize_dedupe_filter cfg st).raw_jobs = st.raw_jobs ∧
      (tool_normalize_dedupe_filter cfg st).ranked = st.ranked ∧
      (tool_normalize_dedupe_filter cfg st).alert = st.alert ∧
      (tool_normalize_dedupe_filter cfg st).report_md = st.report_md ∧
      ∀ q, stripMeta (deref (tool_normalize_dedupe_filter cfg st).store q)
        = stripMeta (deref st.store q)) ∧
    (st'.raw_jobs = st.raw_jobs ∧ st'.jobs = st.jobs ∧ st'.alert = st.alert ∧
      st'.report_md = st.report_md ∧
      ∀ q, stripMeta (deref st'.store q) = stripMeta (deref st.store q)) ∧
    ((pick_alert cfg st).store = st.store ∧ (pick_alert cfg st).raw_jobs = st.raw_jobs ∧
      (pick_alert cfg st).jobs = st.jobs ∧ (pick_alert cfg st).ranked = st.ranked ∧
      (pick_alert cfg st).report_md = st.report_md) := by
  refine ⟨⟨rfl, rfl, rfl, rfl,
      fun q => ndfLoop_stripMeta (cfg.keywords_exclude.map pyLower)
        (cfg.locations_prefer.map pyLower) st.raw_jobs st.store [] [] q⟩,
    ?_, ⟨rfl, rfl, rfl, rfl, rfl⟩⟩
  rcases agent_rank_inversion cfg resp st st' h with
    ⟨_, rfl⟩ |
    ⟨_, _, ⟨pre, rfl, rfl⟩ | ⟨js, smap, rfl, _, _, rfl⟩ | ⟨js, smap, rfl, _, _, rfl⟩⟩
  · exact ⟨rfl, rfl, rfl, rfl, fun q => rfl⟩
  · exact ⟨rfl, rfl, rfl, rfl,
      fun q => heuristicLoop_stripMeta (pySlice cfg.max_jobs_to_score st.jobs) st.store [] q⟩
  · exact ⟨rfl, rfl, rfl, rfl,
      fun q => rankTryLoop_stripMeta smap (pySlice cfg.max_jobs_to_score st.jobs) st.store [] q⟩
  · exact ⟨rfl, rfl, rfl, rfl,
      fun q => (heuristicLoop_stripMeta (pySlice cfg.max_jobs_to_score st.jobs)
          (rankTryLoop smap st.store (pySlice cfg.max_jobs_to_score st.jobs) []).1
          (rankTryLoop smap st.store (pySlice cfg.max_jobs_to_score st.jobs) []).2.1 q).trans
        (rankTryLoop_stripMeta smap (pySlice cfg.max_jobs_to_score st.jobs) st.store [] q)⟩

/-- **C2** (counterexample): in `exState1` the single dict is shared by
`raw_jobs` and `jobs`; after the scorer runs, the record those fields hold
is no longer equal to what the previous stages produced — `score` and
`reason` were written into it in place. -/
theorem claim_C2_counterexample :
    exState1.raw_jobs = [0] ∧ exState1.jobs = [0] ∧
    (agent_rank defaultConfig none exState1).map (fun s => deref s.store 0)
      ≠ some (deref exState1.store 0) := by
  decide

/-- **C2** (witness): the amended frame properties on the heuristic run of
`exState1`. -/
theorem claim_C2_witness :
    (tool_normalize_dedupe_filter defaultConfig exState1).raw_jobs = exState1.raw_jobs ∧
    exState1Ranked.jobs = exState1.jobs ∧
    stripMeta (deref exState1Ranked.store 0) = stripMeta (deref exState1.store 0) ∧
    (pick_alert defaultConfig exState1).store = exState1.store :=
  have hc := claim_C2 defaultConfig none exState1 exState1Ranked (by decide)
  ⟨hc.1.1, hc.2.1.2.1, hc.2.1.2.2.2.2 0, hc.2.2.1⟩

end Agent
